import Mathlib

/-!
Shallow embedding of `src/main.py` (class `MagentoEndpointScraper`), the
single scraper module of the repository, together with proofs settling the
frozen claims about its extraction and normalization pipeline.

Conventions of the embedding:
* Python strings are Lean `String`s; character-level work happens on
  `List Char` through helpers defined here (so every definition computes by
  structural recursion and concrete runs evaluate inside the kernel).
* The fixed regular expressions the source applies are run by a small
  backtracking engine (`RE`, `matchRE`) that mirrors Python `re`
  search/findall semantics: leftmost match, alternative priority,
  greedy/lazy repetition, capture groups.
* Python runtime values flowing through the untyped product records are
  modelled by `PyVal`; `or`-chains use Python truthiness, `str(...)` is
  `pyStr`, `==` is `pyEqV`.
* Python floats are modelled by exact decimals `PyFloat` (an integer scaled
  by a power of ten, plus `float('inf')`).  Every float the scraper builds
  or multiplies is such a short decimal, so no rounding behaviour is lost at
  the inputs the claims touch.
* Network I/O (`self.session.get`) is an explicit environment `Env` mapping
  a URL to an outcome (`FetchOut.exn` for a raised request exception,
  `FetchOut.resp status text` otherwise); `time.sleep` and `print` have no
  effect on the values the claims are about and are dropped.  Fallible
  Python code (attribute errors raised while poking at malformed records)
  returns `Except Unit`.
-/

namespace MagentoScraper

/-! ### Exact decimal floats -/

/-- Model of the Python floats the scraper handles: an exact decimal
`num / 10 ^ shift`, or `float('inf')` (the initial best-variant bound). -/
inductive PyFloat where
  | dec (num : ℤ) (shift : ℕ)
  | inf
deriving DecidableEq

/-- Ten to a natural power, as an integer (structural, kernel-reducible). -/
def pow10 : ℕ → ℤ
  | 0 => 1
  | k + 1 => 10 * pow10 k

/-- Value comparison `a < b` of two modelled floats (`inf` compares as IEEE
infinity: nothing is above it, every decimal is below it). -/
def pfLt : PyFloat → PyFloat → Bool
  | .dec a s, .dec b t => a * pow10 t < b * pow10 s
  | .dec _ _, .inf => true
  | .inf, _ => false

/-- Value equality of two modelled floats. -/
def pfEq : PyFloat → PyFloat → Bool
  | .dec a s, .dec b t => a * pow10 t == b * pow10 s
  | .inf, .inf => true
  | _, _ => false

/-- Multiplication of two modelled floats (exact; the scraper only
multiplies short decimals). -/
def pfMul : PyFloat → PyFloat → PyFloat
  | .dec a s, .dec b t => .dec (a * b) (s + t)
  | _, _ => .inf

/-- Whether a modelled float is zero (Python falsiness of a float). -/
def pfIsZero : PyFloat → Bool
  | .dec a _ => a == 0
  | .inf => false

/-- Drop trailing fractional zeros, for Python's shortest `str(float)`. -/
def pfCanon : ℤ → ℕ → ℤ × ℕ
  | a, 0 => (a, 0)
  | a, s + 1 => if a % 10 == 0 then pfCanon (a / 10) s else (a, s + 1)

/-- Model of Python `str(...)` on a float: canonical decimal with at least
one fractional digit (`str(5.0) = "5.0"`), sign in front. -/
def pfStr (f : PyFloat) : String :=
  match f with
  | .inf => "inf"
  | .dec a s =>
    let (a', s') := pfCanon a s
    let sign := if a' < 0 then ("-") else ("")
    let digits := toString a'.natAbs
    let digits := String.mk (List.replicate (s' + 1 - digits.length) ('0')) ++ digits
    let cut := digits.length - s'
    if s' = 0 then sign ++ digits ++ (".0")
    else sign ++ String.mk (digits.data.take cut) ++ (".") ++
      String.mk (digits.data.drop cut)

/-! ### Python values -/

/-- Model of a Python runtime value as it appears in the scraper's untyped
product records: `None`, booleans, ints, floats, strings, lists and
string-keyed dicts (association lists in insertion order). -/
inductive PyVal where
  | none
  | bool (b : Bool)
  | int (n : ℤ)
  | float (f : PyFloat)
  | str (s : String)
  | list (l : List PyVal)
  | dict (d : List (String × PyVal))

mutual

/-- Structural equality on `PyVal` (used for the container cases of the
Python `==` model below; the scraper never compares containers whose
corresponding numeric entries have different types). -/
def beqPy : PyVal → PyVal → Bool
  | .none, .none => true
  | .bool a, .bool b => a == b
  | .int a, .int b => a == b
  | .float a, .float b => pfEq a b
  | .str a, .str b => a == b
  | .list a, .list b => beqPyList a b
  | .dict a, .dict b => beqPyDict a b
  | _, _ => false

/-- Structural equality on lists of `PyVal`. -/
def beqPyList : List PyVal → List PyVal → Bool
  | [], [] => true
  | x :: xs, y :: ys => beqPy x y && beqPyList xs ys
  | _, _ => false

/-- Structural equality on string-keyed dicts of `PyVal`. -/
def beqPyDict : List (String × PyVal) → List (String × PyVal) → Bool
  | [], [] => true
  | (k, v) :: xs, (k', v') :: ys => k == k' && beqPy v v' && beqPyDict xs ys
  | _, _ => false

end

/-- Python truthiness: `None`, `False`, `0`, `0.0`, `""`, `[]` and the empty
dict are falsy, everything else truthy. -/
def truthy : PyVal → Bool
  | .none => false
  | .bool b => b
  | .int n => n != 0
  | .float f => !pfIsZero f
  | .str s => !s.data.isEmpty
  | .list l => !l.isEmpty
  | .dict d => !d.isEmpty

/-- Python `a or b`: `a` when truthy, else `b`. -/
def pyOr (a b : PyVal) : PyVal := if truthy a then a else b

/-- Model of Python `str(...)` on the values the scraper coerces.
Containers render in a simplified repr (the records the claims exercise
never stringify containers). -/
def pyStr : PyVal → String
  | .none => "None"
  | .bool b => if b then ("True") else ("False")
  | .int n => toString n
  | .float f => pfStr f
  | .str s => s
  | .list _ => "[...]"
  | .dict _ => "dict"

/-- Model of Python `==` between record values: numbers compare by value
across `bool`/`int`/`float`, strings as strings, containers structurally,
and values of unrelated types are unequal. -/
def pyEqV (a b : PyVal) : Bool :=
  match a, b with
  | .bool x, .bool y => x == y
  | .bool x, .int n => (if x then (1 : ℤ) else 0) == n
  | .bool x, .float f => pfEq (.dec (if x then 1 else 0) 0) f
  | .int n, .bool y => n == (if y then (1 : ℤ) else 0)
  | .float f, .bool y => pfEq f (.dec (if y then 1 else 0) 0)
  | .int m, .int n => m == n
  | .int m, .float f => pfEq (.dec m 0) f
  | .float f, .int n => pfEq f (.dec n 0)
  | .float f, .float g => pfEq f g
  | .str s, .str t => s == t
  | .none, .none => true
  | .list l, .list m => beqPyList l m
  | .dict d, .dict e => beqPyDict d e
  | _, _ => false

/-- Python `d.get(k)` on a string-keyed dict: the stored value, or `None`. -/
def pyGet (d : List (String × PyVal)) (k : String) : PyVal :=
  (List.lookup k d).getD .none

/-- Python `d.get(k, default)`. -/
def pyGetD (d : List (String × PyVal)) (k : String) (dflt : PyVal) : PyVal :=
  (List.lookup k d).getD dflt

/-- Python `d[k] = v` on an association-list dict: replaces the first
binding of `k`, or appends one. -/
def dictSet (d : List (String × PyVal)) (k : String) (v : PyVal) :
    List (String × PyVal) :=
  match d with
  | [] => [(k, v)]
  | (k', v') :: rest =>
    if k' = k then (k', v) :: rest else (k', v') :: dictSet rest k v

/-! ### String helpers (structural stand-ins for the Python `str` methods) -/

/-- Whether the first character list is an initial segment of the second. -/
def listLeads : List Char → List Char → Bool
  | [], _ => true
  | _ :: _, [] => false
  | a :: as, b :: bs => a == b && listLeads as bs

/-- Whether `needle` occurs somewhere in `hay`. -/
def listHasSub (needle : List Char) : List Char → Bool
  | [] => needle.isEmpty
  | c :: rest => listLeads needle (c :: rest) || listHasSub needle rest

/-- Python `sub in s` for strings (substring containment). -/
def containsSub (s sub : String) : Bool := listHasSub sub.data s.data

/-- Python `s.lower()` (the scraped text is ASCII). -/
def strLower (s : String) : String := String.mk (s.data.map Char.toLower)

/-- Python `s.replace(' ', '')`: every space removed. -/
def removeSpaces (s : String) : String := String.mk (s.data.filter fun c => c != ' ')

/-- Python `\s` on ASCII input, also the default `str.strip()` set. -/
def pySpace (c : Char) : Bool :=
  c == ' ' || c == '\t' || c == '\n' || c == '\r' || c == (Char.ofNat 11) || c == (Char.ofNat 12)

/-- Python `s.strip()`. -/
def pyStrip (s : String) : String :=
  String.mk (((s.data.dropWhile pySpace).reverse.dropWhile pySpace).reverse)

/-- Python `s.endswith(t)`. -/
def strEndsWith (s t : String) : Bool := listLeads t.data.reverse s.data.reverse

/-- Python `s.startswith(t)`. -/
def strStartsWith (s t : String) : Bool := listLeads t.data s.data

/-- Python `s.split('\n')` (keeps empty pieces, one piece for empty input). -/
def splitNl : List Char → List (List Char)
  | [] => [[]]
  | c :: rest =>
    let r := splitNl rest
    if c == '\n' then [] :: r
    else
      match r with
      | h :: t => (c :: h) :: t
      | [] => [[c]]

/-- The lines of a page body, as strings. -/
def linesOf (s : String) : List String := (splitNl s.data).map String.mk

/-! ### A small backtracking regex engine

The source applies a fixed set of `re` patterns (`re.search` / `re.findall`)
that use only literals, character classes, `.`, alternation, greedy and
lazy repetition, optional parts, capture groups and the `$` anchor.
`matchRE` enumerates the ways a regex can match a prefix of the input in
Python's backtracking priority order (leftmost alternative first, greedy
repetitions longest first, lazy ones shortest first); repetition of a
subexpression only iterates while it consumes input, which is also how
Python's engine cuts off empty repetition.  Case-insensitive patterns are
built from case-folding character predicates so, as in Python, captured
text keeps its original case. -/

/-- Regex abstract syntax: `cls` is a single-character class given by its
predicate, `grp n` a capture group numbered `n`, `endA` the `$` anchor
(end of input), `star true` a lazy repetition, `star false` a greedy
one. -/
inductive RE where
  | eps
  | cls (p : Char → Bool)
  | seq (a b : RE)
  | alt (a b : RE)
  | star (lazy : Bool) (a : RE)
  | grp (n : Nat) (a : RE)
  | endA

/-- Size of a regex, used to bound the engine's recursion depth. -/
def reSize : RE → Nat
  | .eps => 1
  | .cls _ => 1
  | .endA => 1
  | .seq a b => reSize a + reSize b + 1
  | .alt a b => reSize a + reSize b + 1
  | .star _ a => reSize a + 1
  | .grp _ a => reSize a + 1

/-- Captured groups: group number paired with captured characters. -/
abbrev Caps := List (Nat × List Char)

/-- All ways `r` matches a prefix of `s`, in backtracking priority order;
each result is the remaining suffix with the captures made so far.  `fuel`
bounds the recursion depth (every recursive call decrements it); each call
either moves to a structurally smaller regex or, for a repetition step,
strictly shortens the input, so depth never exceeds
`(s.length + 1) * (reSize r + 1)` and `matchFuel` below is always
sufficient. -/
def matchRE : Nat → RE → List Char → Caps → List (List Char × Caps)
  | 0, _, _, _ => []
  | fuel + 1, r, s, cp =>
    match r with
    | .eps => [(s, cp)]
    | .cls p =>
      match s with
      | [] => []
      | c :: rest => if p c then [(rest, cp)] else []
    | .endA => if s.isEmpty then [(s, cp)] else []
    | .seq a b =>
      (matchRE fuel a s cp).flatMap fun (s', cp') => matchRE fuel b s' cp'
    | .alt a b => matchRE fuel a s cp ++ matchRE fuel b s cp
    | .grp n a =>
      (matchRE fuel a s cp).map fun (s', cp') =>
        (s', (n, s.take (s.length - s'.length)) :: cp')
    | .star lz a =>
      let steps := (matchRE fuel a s cp).filter fun (s', _) => s'.length < s.length
      let more := steps.flatMap fun (s', cp') => matchRE fuel (.star lz a) s' cp'
      if lz then (s, cp) :: more else more ++ [(s, cp)]

/-- Always-sufficient fuel for `matchRE` on `s`. -/
def matchFuel (r : RE) (s : List Char) : Nat := (s.length + 1) * (reSize r + 1)

/-- Result of a successful search: start position, end position (one past
the match) and the captures, measured in the original string. -/
structure MatchRes where
  start : Nat
  stop : Nat
  caps : Caps

/-- Leftmost match: try each start position in order, and at each position
take the engine's first (highest-priority) way to match. -/
def searchFrom (r : RE) : List Char → Nat → Option MatchRes
  | s, pos =>
    match (matchRE (matchFuel r s) r s []).head? with
    | Option.some (rest, cp) =>
      Option.some ⟨pos, pos + (s.length - rest.length), cp⟩
    | Option.none =>
      match s with
      | [] => Option.none
      | _ :: tail => searchFrom r tail (pos + 1)

/-- Model of Python `re.search`. -/
def reSearch (r : RE) (s : String) : Option MatchRes := searchFrom r s.data 0

/-- Text of capture group `n` of a match (every group of the patterns below
binds at most once per match). -/
def capString (n : Nat) (m : MatchRes) : Option String :=
  ((m.caps.find? fun pr => pr.1 == n).map fun pr => String.mk pr.2)

/-- Full text of a match inside the searched string. -/
def matchText (s : String) (m : MatchRes) : String :=
  String.mk ((s.data.drop m.start).take (m.stop - m.start))

/-- Model of Python `re.findall`: non-overlapping leftmost matches, scanning
left to right, advancing one character past zero-length matches. -/
def findallFrom (r : RE) : Nat → List Char → Nat → List MatchRes
  | 0, _, _ => []
  | _ + 1, [], pos =>
    match (matchRE (matchFuel r []) r [] []).head? with
    | Option.some (_, cp) => [⟨pos, pos, cp⟩]
    | Option.none => []
  | fuel + 1, s, pos =>
    match searchFrom r s pos with
    | Option.none => []
    | Option.some m =>
      if m.stop ≤ m.start then
        m :: findallFrom r fuel (s.drop (m.start - pos + 1)) (m.start + 1)
      else
        m :: findallFrom r fuel (s.drop (m.stop - pos)) m.stop

/-- Model of Python `re.findall` on a string. -/
def reFindall (r : RE) (s : String) : List MatchRes :=
  findallFrom r (s.length + 1) s.data 0

/-! ### The source's regex patterns as `RE` values -/

/-- Literal string, case-sensitive. -/
def rlit (t : String) : RE := t.data.foldr (fun c r => .seq (.cls fun x => x == c) r) .eps

/-- Literal string, case-insensitive (`t` is written lowercase). -/
def rlitI (t : String) : RE :=
  t.data.foldr (fun c r => .seq (.cls fun x => x.toLower == c) r) .eps

/-- Single literal character. -/
def rch (c : Char) : RE := .cls fun x => x == c

/-- Greedy `p*` over a character class. -/
def rstarG (p : Char → Bool) : RE := .star false (.cls p)

/-- Greedy `e+`. -/
def rplusG (e : RE) : RE := .seq e (.star false e)

/-- Greedy `e?`. -/
def ropt (e : RE) : RE := .alt e .eps

/-- Lazy `.*?` under `re.DOTALL`. -/
def rlazyAll : RE := .star true (.cls fun _ => true)

/-- Lazy `.*?` without `re.DOTALL` (a dot does not cross a newline). -/
def rlazyNoNL : RE := .star true (.cls fun c => c != '\n')

/-- Alternation of a non-empty list, first alternative preferred. -/
def raltL (l : List RE) : RE :=
  match l with
  | [] => .eps
  | [e] => e
  | e :: rest => .alt e (raltL rest)

/-- Sequence of a list of regexes. -/
def rseqL (l : List RE) : RE := l.foldr .seq .eps

/-- Python `\d` (the inputs are ASCII). -/
def pyDigit (c : Char) : Bool := c.isDigit

/-- The opening curly brace character (kept out of string literals). -/
def lbrace : Char := Char.ofNat 123

/-- The closing curly brace character. -/
def rbrace : Char := Char.ofNat 125

/-- The apostrophe character. -/
def apos : Char := Char.ofNat 39

/-- Python `[a-zA-Z0-9-]`. -/
def alnumDash (c : Char) : Bool := c.isAlpha || c.isDigit || c == '-'

/-- The five embedded-JSON patterns of `extract_from_html_json` (source
lines 201-207), in order.  All are searched with `re.DOTALL` and are
case-sensitive; each has one capture group. -/
def jsonPatterns : List RE :=
  [ rseqL [rch '"', rlit ("items"), rch '"', rch ':', rstarG pySpace,
      .grp 1 (rseqL [rch '[', rlazyAll, rch ']'])],
    rseqL [rch '"', rlit ("products"), rch '"', rch ':', rstarG pySpace,
      .grp 1 (rseqL [rch '[', rlazyAll, rch ']'])],
    rseqL [rlit ("var"), rplusG (.cls pySpace), rlit ("productData"),
      rstarG pySpace, rch '=', rstarG pySpace,
      .grp 1 (rseqL [rch lbrace, rlazyAll, rch rbrace]), rch ';'],
    rseqL [rlit ("window"), rch '.', rlit ("catalog"),
      rstarG pySpace, rch '=', rstarG pySpace,
      .grp 1 (rseqL [rch lbrace, rlazyAll, rch rbrace]), rch ';'],
    rseqL [rch '"', rlit ("spConfig"), rch '"', rch ':', rstarG pySpace,
      .grp 1 (rseqL [rch lbrace, rlazyAll, rch rbrace])] ]

/-- The product list-item pattern of `extract_from_html_structure` (source
line 239), searched with `re.DOTALL | re.IGNORECASE`; group 1 is the item's
inner HTML. -/
def productLiRE : RE :=
  rseqL [rlitI ("<li"), rstarG (fun c => c != '>'), rlitI ("class=\""),
    rstarG (fun c => c != '"'), rlitI ("product"),
    rstarG (fun c => c != '"'), rlitI ("item"),
    rstarG (fun c => c != '"'), rlitI ("product-item"),
    rstarG (fun c => c != '"'), rch '"',
    rstarG (fun c => c != '>'), rch '>',
    .grp 1 rlazyAll, rlitI ("</li>")]

/-- The anchor pattern of `parse_product_html` (source line 268), searched
with `re.IGNORECASE`; group 1 is the href (must end in `.html`), group 2
the link text. -/
def linkRE : RE :=
  rseqL [rlitI ("<a"), rstarG (fun c => c != '>'), rlitI ("href=\""),
    .grp 1 (rseqL [rstarG (fun c => c != '"'), rch '.', rlitI ("html")]),
    rch '"', rstarG (fun c => c != '>'), rch '>',
    .grp 2 (rstarG (fun c => c != '<')), rlitI ("</a>")]

/-- The four price patterns of `parse_product_html` (source lines 283-286),
searched with `re.IGNORECASE`, in order. -/
def pricePatternsPPH : List RE :=
  [ rseqL [rlitI ("starting at"), rstarG (fun c => c != '$'), rch '$',
      .grp 1 (rplusG (.cls fun c => c.isDigit || c == '.' || c == ','))],
    rseqL [rlitI ("as low as"), rstarG (fun c => c != '$'), rch '$',
      .grp 1 (rplusG (.cls fun c => c.isDigit || c == '.' || c == ','))],
    rseqL [rlitI ("price"), rstarG (fun c => c != '$'), rch '$',
      .grp 1 (rplusG (.cls fun c => c.isDigit || c == '.' || c == ','))],
    rseqL [rch '$',
      .grp 1 (rplusG (.cls fun c => c.isDigit || c == '.' || c == ','))] ]

/-- The anchor pattern of `extract_simple_product_pattern` (source line
311); unlike `linkRE` it is case-sensitive and its single group is the link
text, which must be non-empty. -/
def simpleAnchorRE : RE :=
  rseqL [rlit ("<a"), rstarG (fun c => c != '>'), rlit ("href=\""),
    rstarG (fun c => c != '"'), rch '.', rlit ("html"), rch '"',
    rstarG (fun c => c != '>'), rch '>',
    .grp 1 (rplusG (.cls fun c => c != '<')), rlit ("</a>")]

/-- The price pattern of `extract_simple_product_pattern` (source line
331), case-sensitive, dot not crossing newlines. -/
def simplePriceRE : RE :=
  rseqL [rlit ("Starting at"), rlazyNoNL, rch '$',
    .grp 1 (rplusG (.cls fun c => c.isDigit || c == '.'))]

/-- The grouped-product table pattern of `fetch_product_variants` (source
line 405), searched with `re.DOTALL | re.IGNORECASE`. -/
def groupedTableRE : RE :=
  rseqL [rlitI ("<table"), rstarG (fun c => c != '>'), rlitI ("grouped"),
    rstarG (fun c => c != '>'), rch '>', rlazyAll, rlitI ("</table>")]

/-- The table-row pattern (source line 413), searched with `re.DOTALL` only
(case-sensitive). -/
def tableRowRE : RE :=
  rseqL [rlit ("<tr"), rstarG (fun c => c != '>'), rch '>', rlazyAll,
    rlit ("</tr>")]

/-- A number with optional decimal part, `\d+(?:\.\d+)?`. -/
def numberRE : RE :=
  rseqL [rplusG (.cls pyDigit), ropt (rseqL [rch '.', rplusG (.cls pyDigit)])]

/-- The first per-row size pattern (source line 420), `re.IGNORECASE`; the
unit alternatives appear in the source's order. -/
def rowSizeRE1 : RE :=
  .grp 1 (rseqL [numberRE, rstarG pySpace,
    raltL [rlitI ("oz"), rlitI ("lb"), rlitI ("lbs"), rlitI ("gal"),
      rlitI ("kg"), rlitI ("g"),
      rseqL [rlitI ("fl"), rstarG pySpace, rlitI ("oz")],
      rlitI ("ounce"), rlitI ("pound"), rlitI ("gallon"), rlitI ("kilogram")]])

/-- The second per-row size pattern (source line 421), `re.IGNORECASE`. -/
def rowSizeRE2 : RE :=
  .grp 1 (rseqL [numberRE, rstarG pySpace,
    raltL [rlitI ("ml"), rlitI ("liter"), rlitI ("litre"), rlitI ("l")]])

/-- The per-row price patterns (source lines 432-434), `re.IGNORECASE`, in
order: `\$([0-9,]+\.?[0-9]*)`, `(\d+\.?\d*)\s*USD` and a quoted `price`
field. -/
def rowPriceREs : List RE :=
  [ rseqL [rch '$',
      .grp 1 (rseqL [rplusG (.cls fun c => c.isDigit || c == ','),
        ropt (rch '.'), rstarG pyDigit])],
    rseqL [.grp 1 (rseqL [rplusG (.cls pyDigit), ropt (rch '.'),
        rstarG pyDigit]), rstarG pySpace, rlitI ("usd")],
    rseqL [rlitI ("price"), .cls (fun c => c == '"' || c == apos), rch ':',
      rstarG pySpace, ropt (.cls fun c => c == '"' || c == apos),
      .grp 1 (rseqL [rplusG (.cls fun c => c.isDigit || c == ','),
        ropt (rch '.'), rstarG pyDigit])] ]

/-- The document-wide fallback size patterns (source lines 496-499),
`re.IGNORECASE`; the first has a shorter unit list than the per-row one. -/
def fallbackSizeRE1 : RE :=
  .grp 1 (rseqL [numberRE, rstarG pySpace,
    raltL [rlitI ("oz"), rlitI ("lb"), rlitI ("lbs"), rlitI ("gal"),
      rlitI ("kg"), rlitI ("g"),
      rseqL [rlitI ("fl"), rstarG pySpace, rlitI ("oz")]]])

/-- The second document-wide fallback size pattern (source line 498). -/
def fallbackSizeRE2 : RE :=
  .grp 1 (rseqL [numberRE, rstarG pySpace,
    raltL [rlitI ("ml"), rlitI ("liter"), rlitI ("litre"), rlitI ("l")]])

/-- The price pattern of the document-wide fallback (source line 508),
case-sensitive. -/
def fallbackPriceRE : RE :=
  rseqL [rch '$',
    .grp 1 (rseqL [rplusG (.cls fun c => c.isDigit || c == ','),
      ropt (rch '.'), rstarG pyDigit])]

/-- The SKU patterns of `extract_sku_from_url` (source lines 352-356), in
order; `$` anchors at end of the URL (product URLs contain no newline). -/
def skuPatterns : List RE :=
  [ rseqL [rch '/', .grp 1 (rplusG (.cls alnumDash)), rch '.',
      rlit ("html"), .endA],
    rseqL [rch '-', .grp 1 (rseqL [.cls Char.isAlpha, rplusG (.cls pyDigit)]),
      rch '.', rlit ("html"), .endA],
    rseqL [rch '/', .grp 1 (rplusG (.cls fun c => c != '/')), .endA] ]

/-! ### Model of `json.loads`

A recursive-descent parser for the JSON subset the scraped pages can embed:
objects, arrays, strings with the single-character escapes, integers and
decimal numbers, `true`/`false`/`null`.  Exponent notation and `\u` escapes
are outside the modelled subset (none of the pages the claims exercise use
them).  A number without a fraction part loads as a Python `int`, one with
a fraction as a `float`, as in `json.loads`; duplicate object keys keep the
last value at the first key's position, as in a Python dict. -/

/-- JSON whitespace skip. -/
def jsonWs : List Char → List Char
  | c :: rest =>
    if c == ' ' || c == '\t' || c == '\n' || c == '\r' then jsonWs rest
    else c :: rest
  | [] => []

/-- Parse the body of a JSON string after its opening quote; returns the
characters and the input after the closing quote. -/
def jsonStringBody : List Char → Option (List Char × List Char)
  | [] => Option.none
  | c :: rest =>
    if c == '"' then Option.some ([], rest)
    else if c == '\\' then
      match rest with
      | [] => Option.none
      | e :: rest' =>
        let dec : Option Char :=
          if e == '"' then Option.some '"'
          else if e == '\\' then Option.some '\\'
          else if e == '/' then Option.some '/'
          else if e == 'b' then Option.some (Char.ofNat 8)
          else if e == 'f' then Option.some (Char.ofNat 12)
          else if e == 'n' then Option.some '\n'
          else if e == 'r' then Option.some '\r'
          else if e == 't' then Option.some '\t'
          else Option.none
        match dec with
        | Option.some d =>
          (jsonStringBody rest').map fun (s, r) => (d :: s, r)
        | Option.none => Option.none
    else (jsonStringBody rest).map fun (s, r) => (c :: s, r)

/-- Digits of a natural number read greedily. -/
def readDigits : List Char → (List Char × List Char)
  | c :: rest =>
    if c.isDigit then
      let (ds, r) := readDigits rest
      (c :: ds, r)
    else ([], c :: rest)
  | [] => ([], [])

/-- Value of a digit list. -/
def digitsVal (ds : List Char) : Nat :=
  ds.foldl (fun acc c => acc * 10 + (c.toNat - '0'.toNat)) 0

/-- Parse a JSON number starting at the current position (JSON forbids a
leading zero on a multi-digit integer part). -/
def jsonNumber (cs : List Char) : Option (PyVal × List Char) :=
  let (neg, cs') :=
    match cs with
    | '-' :: rest => (true, rest)
    | _ => (false, cs)
  let (ds, r1) := readDigits cs'
  if ds.isEmpty then Option.none
  else if ds.length > 1 && ds.headD ('1') == '0' then Option.none
  else
    match r1 with
    | '.' :: r2 =>
      let (fs, r3) := readDigits r2
      if fs.isEmpty then Option.none
      else
        let scaled : ℤ := digitsVal ds * pow10 fs.length + digitsVal fs
        Option.some (.float (.dec (if neg then -scaled else scaled) fs.length), r3)
    | _ =>
      let n : ℤ := digitsVal ds
      Option.some (.int (if neg then -n else n), r1)

/-- A pending task of the JSON parser: a value, the members of an object
(with the pairs read so far), or the items of an array. -/
inductive JsonTask where
  | val (cs : List Char)
  | members (cs : List Char) (acc : List (String × PyVal))
  | items (cs : List Char) (acc : List PyVal)

/-- The JSON parser's recursion, driven by a fuel that every step
decrements (the input length plus one always suffices, as each nesting
level consumes at least one character). -/
def jsonRun : Nat → JsonTask → Option (PyVal × List Char)
  | 0, _ => Option.none
  | fuel + 1, .val cs =>
    (match cs with
     | [] => Option.none
     | c :: rest =>
       if c == '"' then
         (jsonStringBody rest).map fun (s, r) => (.str (String.mk s), r)
       else if c == lbrace then
         match jsonWs rest with
         | d :: r' =>
           if d == rbrace then Option.some (.dict [], r')
           else jsonRun fuel (.members (d :: r') [])
         | [] => Option.none
       else if c == '[' then
         match jsonWs rest with
         | d :: r' =>
           if d == ']' then Option.some (.list [], r')
           else jsonRun fuel (.items (d :: r') [])
         | [] => Option.none
       else if c == 't' then
         if listLeads ("rue").data rest then Option.some (.bool true, rest.drop 3)
         else Option.none
       else if c == 'f' then
         if listLeads ("alse").data rest then Option.some (.bool false, rest.drop 4)
         else Option.none
       else if c == 'n' then
         if listLeads ("ull").data rest then Option.some (.none, rest.drop 3)
         else Option.none
       else jsonNumber (c :: rest))
  | fuel + 1, .members cs acc =>
    (match jsonWs cs with
     | '"' :: rest =>
       match jsonStringBody rest with
       | Option.some (k, r1) =>
         (match jsonWs r1 with
          | ':' :: r2 =>
            match jsonRun fuel (.val (jsonWs r2)) with
            | Option.some (v, r3) =>
              let acc' := dictSet acc (String.mk k) v
              (match jsonWs r3 with
               | ',' :: r4 => jsonRun fuel (.members r4 acc')
               | d :: r4 =>
                 if d == rbrace then Option.some (.dict acc', r4) else Option.none
               | [] => Option.none)
            | Option.none => Option.none
          | _ => Option.none)
       | Option.none => Option.none
     | _ => Option.none)
  | fuel + 1, .items cs acc =>
    (match jsonRun fuel (.val (jsonWs cs)) with
     | Option.some (v, r1) =>
       (match jsonWs r1 with
        | ',' :: r2 => jsonRun fuel (.items r2 (acc ++ [v]))
        | ']' :: r2 => Option.some (.list (acc ++ [v]), r2)
        | _ => Option.none)
     | Option.none => Option.none)

/-- Model of `json.loads`: the parsed value, or `none` when the text is not
valid JSON of the modelled subset (the source catches the raised
`JSONDecodeError` and moves on). -/
def parseJson (s : String) : Option PyVal :=
  match jsonRun (s.length + 1) (.val (jsonWs s.data)) with
  | Option.some (v, rest) =>
    if (jsonWs rest).isEmpty then Option.some v else Option.none
  | Option.none => Option.none

/-! ### The Size Normalizer (`normalize_size`, source lines 455-480)

The source defines `normalize_size` inside `fetch_product_variants`; it is
a pure function of the size text, embedded here at top level.
`float('inf')` is `PyFloat.inf`. -/

/-- Python `\w` (ASCII): letters, digits, underscore. -/
def isWordChar (c : Char) : Bool := c.isAlpha || c.isDigit || c == '_'

/-- Whether `re.search(r'\boz\b', s)` succeeds: an occurrence of `oz` with
a word boundary on both sides, scanning with the previous character at
hand. -/
def hasOzWordAux : Option Char → List Char → Bool
  | prev, 'o' :: 'z' :: rest =>
    ((match prev with
      | Option.some p => !isWordChar p
      | Option.none => true) &&
     (match rest with
      | [] => true
      | c :: _ => !isWordChar c)) ||
    hasOzWordAux (Option.some 'o') ('z' :: rest)
  | _, [] => false
  | _, c :: rest => hasOzWordAux (Option.some c) rest

/-- Whether the cleaned size text contains `oz` as a whole word. -/
def hasOzWord (s : String) : Bool := hasOzWordAux Option.none s.data

/-- The first numeric token `[0-9]+(\.[0-9]+)?` of the cleaned size text,
as an exact decimal (the `float(...)` of the source). -/
def parseFirstNumber : List Char → Option PyFloat
  | [] => Option.none
  | c :: rest =>
    if c.isDigit then
      let (ds, r1) := readDigits (c :: rest)
      match r1 with
      | '.' :: r2 =>
        let (fs, _) := readDigits r2
        if fs.isEmpty then Option.some (.dec (digitsVal ds) 0)
        else
          Option.some (.dec (digitsVal ds * pow10 fs.length + digitsVal fs) fs.length)
      | _ => Option.some (.dec (digitsVal ds) 0)
    else parseFirstNumber rest

/-- The Size Normalizer: magnitude (ml or g; `PyFloat.inf` when
unparseable) and family label, computed exactly as the nested
`normalize_size` of `fetch_product_variants` does: the text is lower-cased
and stripped of spaces, the first number is scaled by the first matching
unit rule. -/
def normalize_size (size_text : String) : PyFloat × String :=
  let s := removeSpaces (strLower size_text)
  match parseFirstNumber s.data with
  | Option.none => (.inf, "unknown")
  | Option.some val =>
    if containsSub s ("floz") || containsSub s ("fl.oz") then
      (pfMul val (.dec 295735 4), "volume")
    else if containsSub s ("ml") then (val, "volume")
    else if containsSub s ("liter") || containsSub s ("litre") || strEndsWith s ("l") then
      (pfMul val (.dec 1000 0), "volume")
    else if containsSub s ("gal") || containsSub s ("gallon") then
      (pfMul val (.dec 378541 2), "volume")
    else if hasOzWord s && !containsSub s ("floz") then
      (pfMul val (.dec 283495 4), "weight")
    else if containsSub s ("lb") || containsSub s ("lbs") || containsSub s ("pound") then
      (pfMul val (.dec 453592 3), "weight")
    else if containsSub s ("kg") || containsSub s ("kilogram") then
      (pfMul val (.dec 1000 0), "weight")
    else if containsSub s ("g") then (val, "weight")
    else (.inf, "unknown")

/-! ### The Variant Resolver (`fetch_product_variants`, source lines
393-522) -/

/-- A size/price pair from a detail page's variant table. -/
structure SizeVariant where
  size : String
  price : String
deriving DecidableEq

/-- The sentinel the Variant Resolver returns on any failure (source line
522). -/
def variantSentinel : SizeVariant := ⟨"Various sizes available", "N/A"⟩

/-- Outcome of one `self.session.get`: a raised request exception, or a
response with status code and body text. -/
inductive FetchOut where
  | exn
  | resp (status : Nat) (text : String)

/-- The scraper's I/O environment: its `base_url` field and the network. -/
structure Env where
  base : String
  fetch : String → FetchOut

/-- Split a character list around the first occurrence of `sub`. -/
def splitOnSub : List Char → List Char → Option (List Char × List Char)
  | s, sub =>
    match s with
    | [] => if sub.isEmpty then Option.some ([], []) else Option.none
    | c :: rest =>
      if listLeads sub (c :: rest) then Option.some ([], (c :: rest).drop sub.length)
      else (splitOnSub rest sub).map fun (b, a) => (c :: b, a)

/-- The scheme-and-host part of an absolute URL (everything up to the first
slash after `://`). -/
def urlOrigin (u : String) : String :=
  match splitOnSub u.data ("://").data with
  | Option.some (scheme, rest) =>
    String.mk (scheme ++ ("://").data ++ rest.takeWhile (fun c => c != '/'))
  | Option.none => String.mk (u.data.takeWhile (fun c => c != '/'))

/-- Model of `urllib.parse.urljoin` restricted to the shapes the scraper
produces: an absolute `rel` wins, a root-relative `rel` is resolved against
the base's origin, anything else is appended after the base's last path
segment (the base always ends in `/` at the call site). -/
def urljoin (base rel : String) : String :=
  if strStartsWith rel ("http://") || strStartsWith rel ("https://") then rel
  else if strStartsWith rel ("/") then urlOrigin base ++ rel
  else
    let cut := (base.data.reverse.takeWhile (fun c => c != '/')).length
    String.mk (base.data.take (base.data.length - cut)) ++ rel

/-- One table row parsed for a size and a price (source lines 417-451):
`none` when no size pattern matches (such a row does not qualify). -/
def rowVariant (row : String) : Option SizeVariant :=
  let sized :=
    ([rowSizeRE1, rowSizeRE2].findSome? fun p =>
      (reSearch p row).bind (capString 1))
  match sized with
  | Option.none => Option.none
  | Option.some sz =>
    let priced :=
      (rowPriceREs.findSome? fun p => (reSearch p row).bind (capString 1))
    Option.some
      ⟨pyStrip sz,
        match priced with
        | Option.some pr => if pr.isEmpty then "N/A" else "$" ++ pr
        | Option.none => "N/A"⟩

/-- The qualifying variant rows of a page: rows of the first
grouped-product table, each parsed by `rowVariant`; `[]` when there is no
grouped table. -/
def groupedVariants (content : String) : List SizeVariant :=
  match reSearch groupedTableRE content with
  | Option.none => []
  | Option.some m =>
    let tableHtml := matchText content m
    ((reFindall tableRowRE tableHtml).map (matchText tableHtml)).filterMap rowVariant

/-- The selection loop over the variant list (source lines 481-487): the
first row of strictly smallest normalized magnitude, `none` when every row
normalizes to `inf`. -/
def bestLoop (variants : List SizeVariant) : Option SizeVariant :=
  (variants.foldl
    (fun (acc : Option SizeVariant × PyFloat) v =>
      let n := (normalize_size v.size).1
      if pfLt n acc.2 then (Option.some v, n) else acc)
    (Option.none, .inf)).1

/-- The Variant Resolver's selection step (source lines 481-493): the best
row when one normalizes, else the first row; `none` only for an empty
list. -/
def chooseVariant (variants : List SizeVariant) : Option SizeVariant :=
  match bestLoop variants with
  | Option.some b => Option.some b
  | Option.none => variants.head?

/-- The document-wide fallback scan (source lines 495-517): the first
size-like token anywhere in the page, with a price searched in a ±200
character window around it. -/
def docSizeFallback (content : String) : Option SizeVariant :=
  [fallbackSizeRE1, fallbackSizeRE2].findSome? fun p =>
    match reSearch p content with
    | Option.none => Option.none
    | Option.some m =>
      let lo := m.start - 200
      let hi := m.stop + 200
      let context := String.mk ((content.data.drop lo).take (hi - lo))
      let priced := (reSearch fallbackPriceRE context).bind (capString 1)
      Option.some
        ⟨pyStrip ((capString 1 m).getD ("")),
          match priced with
          | Option.some pr => "$" ++ pr
          | Option.none => "N/A"⟩

/-- The Variant Resolver `fetch_product_variants`: fetches the product's
detail page and extracts the smallest size variant, degrading to
`variantSentinel` on any failure.  The argument is the raw `product_url`
value; a non-string value makes `product_url.strip()` raise inside the
resolver's own `try`, which also yields the sentinel. -/
def fetch_product_variants (env : Env) (product_url : PyVal) : SizeVariant :=
  match product_url with
  | .str u =>
    match env.fetch (urljoin (env.base ++ "/") (pyStrip u)) with
    | .exn => variantSentinel
    | .resp status content =>
      if status = 200 then
        match chooseVariant (groupedVariants content) with
        | Option.some best => best
        | Option.none =>
          match docSizeFallback content with
          | Option.some v => v
          | Option.none => variantSentinel
      else variantSentinel
  | _ => variantSentinel

/-! ### The HTML Product Extractor (source lines 195-363) -/

/-- Model of `extract_sku_from_url` (source lines 347-363): first of three
URL patterns to match, else `N/A`. -/
def extract_sku_from_url (url : String) : String :=
  match skuPatterns.findSome? fun p => (reSearch p url).bind (capString 1) with
  | Option.some sku => sku
  | Option.none => "N/A"

/-- Stop words of the per-fragment parser (source lines 274-276). -/
def stopWordsPPH : List String := ["view", "details", "more"]

/-- The anchor scan of `parse_product_html` (source lines 267-280): the
first `(href, text)` pair whose stripped link text is longer than 3
characters and not a stop word. -/
def pphFound (product_html : String) : Option (String × String) :=
  let links := (reFindall linkRE product_html).filterMap fun m =>
    match capString 1 m, capString 2 m with
    | Option.some u, Option.some t => Option.some (u, t)
    | _, _ => Option.none
  links.find? fun (_, potential) =>
    let clean := pyStrip potential
    clean.length > 3 && !stopWordsPPH.contains (strLower clean)

/-- The price scan of `parse_product_html` (source lines 282-292): first of
the four price patterns to match, `$`-prefixed, else `N/A`. -/
def pphPrice (product_html : String) : String :=
  match pricePatternsPPH.findSome? fun p => (reSearch p product_html).bind (capString 1) with
  | Option.some pr => "$" ++ pr
  | Option.none => "N/A"

/-- Model of `parse_product_html` (source lines 255-295): the first anchor
with a qualifying link text gives name/url/sku, the first price pattern the
price; the record is dropped (`none`) when the name stayed `Unknown` — that
is, when no anchor qualified or the qualifying anchor text is itself the
literal `Unknown`. -/
def parse_product_html (product_html : String) : Option (List (String × PyVal)) :=
  match pphFound product_html with
  | Option.some (u, t) =>
    if pyStrip t ≠ ("Unknown") then
      Option.some
        [("name", .str (pyStrip t)), ("price", .str (pphPrice product_html)),
         ("url", .str u), ("sku", .str (extract_sku_from_url u)),
         ("size", .str ("Various sizes available"))]
    else Option.none
  | Option.none => Option.none

/-- Stop words of the loose-pattern strategy (source lines 318-321). -/
def stopWordsLoose : List String :=
  ["view", "details", "more", "home", "contact", "about", "blog"]

/-- The group-1 text of the loose anchor pattern on one line, when it
matches. -/
def looseAnchorText (line : String) : Option String :=
  (reSearch simpleAnchorRE line).bind (capString 1)

/-- Whether a stripped anchor text qualifies as a product name in the
loose-pattern strategy. -/
def qualifiesLoose (nm : String) : Bool :=
  nm.length > 3 && !stopWordsLoose.contains (strLower nm)

/-- The fresh accumulator dict the loose-pattern strategy starts for a
newly seen product name (source lines 322-328). -/
def newLooseRec (nm : String) : List (String × PyVal) :=
  [("name", .str nm), ("price", .str ("N/A")), ("url", .str ("N/A")),
   ("sku", .str ("N/A")), ("size", .str ("Various sizes available"))]

/-- State of the loose-pattern loop.  The Python loop appends the (mutable)
`current_product` dict into `products` without copying, so a later price
assignment also updates the already-appended references; the state
therefore keeps the finished (`frozen`) dicts, the number of live
references to the current dict already flushed into the list (`pending`),
and the current dict itself.  Pending references materialize with the
current dict's final value once it is replaced or the input ends. -/
structure LooseState where
  frozen : List (List (String × PyVal))
  pending : Nat
  current : Option (List (String × PyVal))

/-- One line of the loose-pattern loop (source lines 308-333): a matching
anchor first flushes the accumulator, then replaces it only when the
stripped text qualifies; a `Starting at $N` match updates the current
dict's price (visible through every pending reference). -/
def looseStep (st : LooseState) (line : String) : LooseState :=
  let st1 :=
    match looseAnchorText line with
    | Option.some g =>
      let flushed :=
        match st.current with
        | Option.some _ => { st with pending := st.pending + 1 }
        | Option.none => st
      let nm := pyStrip g
      if qualifiesLoose nm then
        match flushed.current with
        | Option.some c =>
          { frozen := flushed.frozen ++ List.replicate flushed.pending c,
            pending := 0, current := Option.some (newLooseRec nm) }
        | Option.none => { flushed with current := Option.some (newLooseRec nm) }
      else flushed
    | Option.none => st
  match (reSearch simplePriceRE line).bind (capString 1) with
  | Option.some pr =>
    match st1.current with
    | Option.some c =>
      { st1 with current := Option.some (dictSet c ("price") (.str ("$" ++ pr))) }
    | Option.none => st1
  | Option.none => st1

/-- The product list at the end of the loose-pattern loop: frozen dicts,
the pending references, and the final flush of the accumulator (source
lines 335-337). -/
def looseFinish (st : LooseState) : List (List (String × PyVal)) :=
  match st.current with
  | Option.some c => st.frozen ++ List.replicate (st.pending + 1) c
  | Option.none => st.frozen

/-- Model of `extract_simple_product_pattern` (source lines 297-345): the
line-based fallback strategy. -/
def extract_simple_product_pattern (html_content : String) : Option (List PyVal) :=
  let lines := linesOf html_content
  let st := lines.foldl looseStep ⟨[], 0, Option.none⟩
  let products := (looseFinish st).map PyVal.dict
  if products.isEmpty then Option.none else Option.some products

/-- Model of `extract_from_html_structure` (source lines 231-253): all
list-item fragments parsed by `parse_product_html`; when none parse, fall
back to the loose-pattern strategy. -/
def extract_from_html_structure (html_content : String) : Option (List PyVal) :=
  let fragments := (reFindall productLiRE html_content).filterMap (capString 1)
  let products := (fragments.filterMap parse_product_html).map PyVal.dict
  if products.isEmpty then extract_simple_product_pattern html_content
  else Option.some products

/-- The embedded-JSON phase of `extract_from_html_json` (source lines
200-226): for each pattern in order, for each match in order, accept the
first parse that is a non-empty list, or a dict whose `products` value is a
list (of any length, as in the source). -/
def jsonPhase (html_content : String) : Option (List PyVal) :=
  jsonPatterns.findSome? fun pat =>
    ((reFindall pat html_content).filterMap (capString 1)).findSome? fun mtxt =>
      match parseJson mtxt with
      | Option.some (.list l) => if l.length > 0 then Option.some l else Option.none
      | Option.some (.dict d) =>
        match List.lookup ("products") d with
        | Option.some (.list ps) => Option.some ps
        | _ => Option.none
      | _ => Option.none

/-- Model of `extract_from_html_json` (source lines 195-229), the
extraction cascade entry point: embedded JSON first, then the
structured-markup and loose-pattern strategies. -/
def extract_from_html_json (html_content : String) : Option (List PyVal) :=
  match jsonPhase html_content with
  | Option.some l => Option.some l
  | Option.none => extract_from_html_structure html_content

/-! ### The Record Normalizer (`extract_product_info`, source lines
524-624)

Only the `search`/`category` branch is reachable from the Collection Walker
and from the spec's Record Normalizer contract (`sourceKind ∈ {search,
category}`); the dead `graphql`/`rest` branches of the source are not
embedded.  Malformed records can make the Python code raise (an
`AttributeError` from `attr.get` / `.lower()` on a non-dict entry of
`custom_attributes`, or from `.get` on a non-dict record); those raises are
the `Except.error` outcome, caught by `scrape_products`' per-URL
handler. -/

/-- The spec's `sourceKind` enum; both values take the same branch of
`extract_product_info`. -/
inductive SourceKind where
  | search
  | category
deriving DecidableEq

/-- A canonical product record as `extract_product_info` builds it.  The
`name` keeps its raw Python value (the source assigns
`product_data.get(...)` without coercing), `price` and `size` are always
strings. -/
structure ProductInfo where
  name : PyVal
  price : String
  size : String

/-- The name chain of the Record Normalizer (source lines 568-570):
`get('name') or get('title') or get('label', 'Unknown')`. -/
def epiName (d : List (String × PyVal)) : PyVal :=
  pyOr (pyOr (pyGet d ("name")) (pyGet d ("title")))
    (pyGetD d ("label") (.str ("Unknown")))

/-- Whether a value is a Python `int`/`float` for `isinstance(price, (int,
float))`; `bool` is a subclass of `int` in Python and counts. -/
def isNumeric : PyVal → Bool
  | .int _ => true
  | .float _ => true
  | .bool _ => true
  | _ => false

/-- The price chain and formatting of the Record Normalizer (source lines
572-580): first truthy of the four price fields (else `N/A`), `$`-prefixed
when numeric, string-coerced otherwise. -/
def epiPrice (d : List (String × PyVal)) : String :=
  let price :=
    pyOr (pyOr (pyOr (pyOr (pyGet d ("price")) (pyGet d ("final_price")))
      (pyGet d ("regular_price"))) (pyGet d ("special_price"))) (.str ("N/A"))
  if isNumeric price then "$" ++ pyStr price else pyStr price

/-- The literal size fields, in the source's order (line 583). -/
def sizeFields : List String := ["size", "weight", "volume", "capacity", "amount"]

/-- The direct size-field scan (source lines 583-587): the first field
present in the record, string-coerced; else `N/A`. -/
def epiSizeField (d : List (String × PyVal)) : String :=
  match sizeFields.find? fun f => (List.lookup f d).isSome with
  | Option.some f => pyStr ((List.lookup f d).getD .none)
  | Option.none => "N/A"

/-- One `custom_attributes` entry's `attribute_code`, lower-cased; raises
(errors) when the entry is not a dict or the code is not a string. -/
def attrCodeLower (attr : PyVal) : Except Unit String :=
  match attr with
  | .dict ad =>
    match (List.lookup ("attribute_code") ad).getD (.str ("")) with
    | .str s => .ok (strLower s)
    | _ => .error ()
  | _ => .error ()

/-- The scan over a `custom_attributes` list (source lines 592-598): the
first entry whose code is a size field overrides the size. -/
def attrListScan (attrs : List PyVal) (size0 : String) : Except Unit String :=
  match attrs with
  | [] => .ok size0
  | a :: rest => do
    let code ← attrCodeLower a
    if sizeFields.contains code then
      match a with
      | .dict ad => .ok (pyStr ((List.lookup ("value") ad).getD (.str ("N/A"))))
      | _ => .error ()
    else attrListScan rest size0

/-- The `custom_attributes` step of the Record Normalizer (source lines
590-603): a list is scanned entry by entry, a dict (flat mapping form) is
probed for the size fields directly, anything else is ignored. -/
def epiSizeAttrs (d : List (String × PyVal)) (size0 : String) : Except Unit String :=
  match List.lookup ("custom_attributes") d with
  | Option.none => .ok size0
  | Option.some ca =>
    match ca with
    | .list attrs => attrListScan attrs size0
    | .dict cd =>
      match sizeFields.find? fun f => (List.lookup f cd).isSome with
      | Option.some f => .ok (pyStr ((List.lookup f cd).getD .none))
      | Option.none => .ok size0
    | _ => .ok size0

/-- The URL chain of the enrichment step (source line 607):
`get('url') or get('link') or get('product_url')`. -/
def epiUrl (d : List (String × PyVal)) : PyVal :=
  pyOr (pyOr (pyGet d ("url")) (pyGet d ("link"))) (pyGet d ("product_url"))

/-- The enrichment step (source lines 605-623): when the size is still a
placeholder and the record carries a product URL, resolve the smallest
variant and overwrite size (and price, when the variant priced). -/
def epiEnrich (env : Env) (d : List (String × PyVal)) (price : String)
    (size : String) : String × String :=
  if size = "N/A" ∨ size = "Various sizes available" then
    let product_url := epiUrl d
    if truthy product_url then
      let variant_data := fetch_product_variants env product_url
      if variant_data.size ≠ "Various sizes available" then
        (if variant_data.price ≠ "N/A" then variant_data.price else price,
         variant_data.size)
      else (price, size)
    else (price, size)
  else (price, size)

/-- The Record Normalizer `extract_product_info` for `sourceKind ∈ {search,
category}` (both values run the same branch; the parameter is kept to match
the contract).  A record that is not a dict makes the first
`product_data.get` raise. -/
def extract_product_info (env : Env) (product_data : PyVal) (_source : SourceKind) :
    Except Unit ProductInfo :=
  match product_data with
  | .dict d =>
    match epiSizeAttrs d (epiSizeField d) with
    | .error e => .error e
    | .ok size1 =>
      let (price2, size2) := epiEnrich env d (epiPrice d) size1
      .ok ⟨epiName d, price2, size2⟩
  | _ => .error ()

/-! ### The Collection Walker (`extract_with_pagination` and
`scrape_products`, source lines 627-701)

Page requests are observable I/O; the embedding returns the list of page
numbers requested for each listing URL alongside the extracted values, so
the pagination claims can speak about which pages were fetched. -/

/-- The page URL for page `p` of a listing URL (source lines 636-639). -/
def pageUrl (base_url : String) (p : Nat) : String :=
  if containsSub base_url ("?") then base_url ++ ("&p=") ++ toString p
  else base_url ++ ("?p=") ++ toString p

/-- Whether a page body carries both content markers (source lines
644-645). -/
def hasMarkers (text : String) : Bool :=
  containsSub (strLower text) ("product") && containsSub (strLower text) ("starting at")

/-- Whether page `p` of a listing continues the pagination walk: the fetch
succeeded with status 200, the markers are present, and extraction returned
a non-empty list. -/
def goodPage (env : Env) (base_url : String) (p : Nat) : Bool :=
  match env.fetch (pageUrl base_url p) with
  | .exn => false
  | .resp status text =>
    status == 200 && hasMarkers text &&
      (match extract_from_html_json text with
       | Option.some l => !l.isEmpty
       | Option.none => false)

/-- The page loop of `extract_with_pagination` from page `page` with
`budget` pages left: the pages requested and the raw records accumulated.
Any terminal condition (request exception, non-200 status, missing markers,
empty extraction) stops after the page that exhibited it. -/
def ewpAux (env : Env) (base_url : String) : Nat → Nat → List Nat × List PyVal
  | _, 0 => ([], [])
  | page, budget + 1 =>
    match env.fetch (pageUrl base_url page) with
    | .exn => ([page], [])
    | .resp status text =>
      if status = 200 then
        if hasMarkers text then
          match extract_from_html_json text with
          | Option.some l =>
            if l.isEmpty then ([page], [])
            else
              let (tr, ps) := ewpAux env base_url (page + 1) budget
              (page :: tr, l ++ ps)
          | Option.none => ([page], [])
        else ([page], [])
      else ([page], [])

/-- Model of `extract_with_pagination` (source lines 627-670): pages `1` to
`max_pages`, stopping at the first terminal page. -/
def extract_with_pagination (env : Env) (base_url : String) (max_pages : Nat) :
    List Nat × List PyVal :=
  ewpAux env base_url 1 max_pages

/-- The per-record loop of `scrape_products` (source lines 688-692):
deduplicate against the names already in `products`, then normalize and
append.  The returned flag records whether an exception aborted the loop
(caught by the per-URL handler, which keeps the records appended so
far). -/
def processRecords (env : Env) : List PyVal → List ProductInfo →
    List ProductInfo × Bool
  | [], acc => (acc, false)
  | r :: rest, acc =>
    match r with
    | .dict d =>
      let rn := pyGet d ("name")
      if acc.any fun p => pyEqV p.name rn then processRecords env rest acc
      else
        match extract_product_info env r .category with
        | .ok info => processRecords env rest (acc ++ [info])
        | .error _ => (acc, true)
    | _ => (acc, true)

/-- The per-URL loop of `scrape_products` (source lines 683-695), threading
the request trace and the accumulated products across listing URLs. -/
def scrapeLoop (env : Env) : List String → List (String × List Nat) →
    List ProductInfo → List (String × List Nat) × List ProductInfo
  | [], trace, acc => (trace, acc)
  | u :: rest, trace, acc =>
    let pr := extract_with_pagination env u 30
    let acc' := if pr.2.isEmpty then acc else (processRecords env pr.2 acc).1
    scrapeLoop env rest (trace ++ [(u, pr.1)]) acc'

/-- Model of `scrape_products` (source lines 672-701): walk every listing
URL (none provided means the empty default list), returning the
page-request trace per URL and the deduplicated canonical products. -/
def scrape_products (env : Env) (urls : Option (List String)) :
    List (String × List Nat) × List ProductInfo :=
  scrapeLoop env (urls.getD []) [] []

/-! ### Concrete scenarios used by the claim theorems and witnesses -/

/-- The detail page of the end-to-end example: a grouped-product table with
exactly the two variant rows (`4oz`, `$10`) and (`1gal`, `$80`). -/
def detailC1 : String := "<table grouped><tr>4oz $10</tr><tr>1gal $80</tr></table>"

/-- Environment whose every fetch returns the example detail page. -/
def envC1 : Env := ⟨"http://s.com", fun _ => .resp 200 detailC1⟩

/-- The raw record of the end-to-end example. -/
def rawC1 : PyVal :=
  .dict [("name", .str ("Sweet Almond Oil")), ("price", .float (.dec 125 1)),
    ("size", .str ("N/A")), ("url", .str ("/sweet-almond-oil.html"))]

/-- Environment whose every fetch raises (used where no fetch should
matter). -/
def envNoFetch : Env := ⟨"http://s.com", fun _ => .exn⟩

/-- A raw record whose first price field holds the numeric value `0`. -/
def rawC3 : PyVal := .dict [("name", .str ("X")), ("price", .int 0)]

/-- A listing page whose only anchor text is literally `Unknown` (with both
pagination markers present). -/
def pageC4 : String := "product starting at <a href=\"/x.html\">Unknown</a>"

/-- Environment serving `pageC4` as page 1 and a marker-less page
otherwise. -/
def envC4 : Env :=
  ⟨"http://s.com",
    fun url => if containsSub url ("p=1") then .resp 200 pageC4 else .resp 200 ("")⟩

/-- Two listing pages carrying records with the identical name
`Lavender Oil` at different prices, then an empty page. -/
def envC5 : Env :=
  ⟨"http://s.com",
    fun url =>
      if url == ("http://s.com/c?p=1") then
        .resp 200 ("product <a href=\"/a.html\">Lavender Oil</a> Starting at $5")
      else if url == ("http://s.com/c?p=2") then
        .resp 200 ("product <a href=\"/b.html\">Lavender Oil</a> Starting at $9")
      else if strStartsWith url ("http://s.com/c?p=") then .resp 200 ("")
      else .exn⟩

/-- The mocked page sequence of the pagination claim: pages 1 and 2 carry
one product each, page 3 has no product markers, pages past 3 would carry
products again if they were ever requested. -/
def envC8 : Env :=
  ⟨"http://s.com",
    fun url =>
      if url == ("http://s.com/c?p=1") then
        .resp 200 ("product starting at <a href=\"/a.html\">Oil Alpha</a>")
      else if url == ("http://s.com/c?p=2") then
        .resp 200 ("product starting at <a href=\"/b.html\">Oil Beta</a>")
      else if url == ("http://s.com/c?p=3") then .resp 200 ("nothing here")
      else .resp 200 ("product starting at <a href=\"/z.html\">Oil Zeta</a>")⟩

/-- The listing URL of the concrete pagination and dedup scenarios. -/
def urlC : String := "http://s.com/c"

/-- HTML for the loose-pattern duplication scenario: a qualifying anchor
line followed by an anchor line whose text is the stop word `more`. -/
def htmlC10 : String :=
  "<a href=\"/lavender-oil.html\">Lavender Oil</a>\n<a href=\"/more.html\">more</a>"

/-- HTML for the cascade-fallback witness: no embedded JSON, no structured
markup, one qualifying anchor line and one `Starting at $N` line. -/
def htmlC9 : String := "x\n<a href=\"/a.html\">Lavender Oil</a>\nStarting at $5"

/-- Stated from the amended claim's words, for comparison with the code's
price chain: the canonical price comes from the first price field whose
value is present and truthy (falsy values — numeric zero, the empty string,
`None`, empty containers — are skipped); a truthy numeric value formats as
`"$" + str(value)`, a truthy non-numeric one passes through string-coerced,
and if no field is present and truthy the price is `N/A`. -/
def specAmendedPrice (d : List (String × PyVal)) : String :=
  match ["price", "final_price", "regular_price", "special_price"].find?
      (fun k => truthy (pyGet d k)) with
  | Option.some k =>
    let v := pyGet d k
    if isNumeric v then "$" ++ pyStr v else pyStr v
  | Option.none => "N/A"

/-- The concrete record of the amended-price witness: its first truthy
price field is `regular_price` (the `price` field holds numeric zero). -/
def rawC3w : List (String × PyVal) :=
  [("name", .str ("X")), ("price", .int 0), ("regular_price", .float (.dec 25 1))]

/-- Whether a raw record carries the name `nm` in its literal `name`
field. -/
def carriesName (nm : String) (r : PyVal) : Bool :=
  match r with
  | .dict d => beqPy (pyGet d ("name")) (.str nm)
  | _ => false

/-- The canonical name a raw record would normalize to (the name chain for
dict records; non-dict records never reach the name assignment). -/
def epiNameOf (r : PyVal) : PyVal :=
  match r with
  | .dict d => epiName d
  | _ => .str ("Unknown")

/-- The raw-record streams a scrape run processes, one per listing URL. -/
def rawStreams (env : Env) (urls : List String) : List (List PyVal) :=
  urls.map fun u => (extract_with_pagination env u 30).2

/-- The raw record page 1 of the dedup scenario yields. -/
def recC5a : List (String × PyVal) :=
  [("name", .str ("Lavender Oil")), ("price", .str ("$5")), ("url", .str ("N/A")),
   ("sku", .str ("N/A")), ("size", .str ("Various sizes available"))]

/-- The raw record page 2 of the dedup scenario yields (same name,
different price). -/
def recC5b : List (String × PyVal) :=
  [("name", .str ("Lavender Oil")), ("price", .str ("$9")), ("url", .str ("N/A")),
   ("sku", .str ("N/A")), ("size", .str ("Various sizes available"))]

/-- The canonical product the first-seen dedup record normalizes to. -/
def infoC5 : ProductInfo := ⟨.str ("Lavender Oil"), "$5", "Various sizes available"⟩

/-! ## Theorems settling the claims -/

set_option maxRecDepth 1000000

/-- C1: at the end-to-end example's input (raw record with the mocked
detail page exposing the variant rows (`4oz`, `$10`) and (`1gal`, `$80`)),
the code returns the `1gal`/`$80` variant, not the claimed `4oz`/`$10`
canonical product: after space-stripping, `\boz\b` cannot match `4oz` (no
word boundary between a digit and a letter), so `4oz` normalizes to
infinity, while `1gal` falls into the ends-with-`l` liter rule; the larger
gallon row therefore wins the "smallest" selection.  The theorem evaluates
the embedded code at exactly the claimed input and exhibits the divergent
output. -/
theorem C1_end_to_end_code_result :
    groupedVariants detailC1 = [⟨"4oz", "$10"⟩, ⟨"1gal", "$80"⟩] ∧
    fetch_product_variants envC1 (.str ("/sweet-almond-oil.html")) = ⟨"1gal", "$80"⟩ ∧
    extract_product_info envC1 rawC1 .category =
      .ok ⟨.str ("Sweet Almond Oil"), "$80", "1gal"⟩ ∧
    extract_product_info envC1 rawC1 .category ≠
      .ok ⟨.str ("Sweet Almond Oil"), "$10", "4oz"⟩ := by
  have h : extract_product_info envC1 rawC1 .category =
      .ok ⟨.str ("Sweet Almond Oil"), "$80", "1gal"⟩ := rfl
  refine ⟨rfl, rfl, h, ?_⟩
  rw [h]
  intro hc
  simp only [Except.ok.injEq, ProductInfo.mk.injEq] at hc
  exact absurd hc.2.1 (by decide)

/-- C2: the Size Normalizer's results at the spec's four examples.  Two of
the four magnitudes diverge from the claim: `"16 oz"` normalizes to
infinity (space-stripping destroys the `\boz\b` word boundary) instead of
`453.592`, and `"1 gal"` normalizes to `1000` (the ends-with-`l` liter rule
fires before the gallon rule) instead of `3785.41`; `"1 kg"` and `"500 ml"`
agree with the claim. -/
theorem C2_unit_conversion_code_result :
    normalize_size ("16 oz") = (.inf, "unknown") ∧
    normalize_size ("1 gal") = (.dec 1000 0, "volume") ∧
    normalize_size ("1 kg") = (.dec 1000 0, "weight") ∧
    normalize_size ("500 ml") = (.dec 500 0, "volume") ∧
    pfEq (normalize_size ("16 oz")).1 (.dec 453592 3) = false ∧
    pfEq (normalize_size ("1 gal")).1 (.dec 378541 2) = false :=
  ⟨rfl, rfl, rfl, rfl, rfl, rfl⟩

/-- C3 counterexample: a record whose first present price field holds the
numeric value `0` yields price `N/A`, not the claimed `$0`: the source's
`or`-chain skips every falsy value, so a present numeric `0` is treated as
absent. -/
theorem C3_counterexample_zero_price :
    extract_product_info envNoFetch rawC3 .search = .ok ⟨.str ("X"), "N/A", "N/A"⟩ ∧
    extract_product_info envNoFetch rawC3 .search ≠ .ok ⟨.str ("X"), "$0", "N/A"⟩ := by
  have h : extract_product_info envNoFetch rawC3 .search =
      .ok ⟨.str ("X"), "N/A", "N/A"⟩ := rfl
  refine ⟨h, ?_⟩
  rw [h]
  intro hc
  simp only [Except.ok.injEq, ProductInfo.mk.injEq] at hc
  exact absurd hc.2.1 (by decide)

/-- C4 counterexample: a full scrape run over a page whose only anchor text
is literally `Unknown` produces a canonical product whose name is the
sentinel `Unknown` — the loose-pattern strategy emits the record (the
anchor text qualifies: 7 characters, not a stop word) and `scrape_products`
performs no name-validity check before emitting it. -/
theorem C4_counterexample_unknown_in_output :
    (scrape_products envC4 (Option.some [urlC])).2 =
      [⟨.str ("Unknown"), "N/A", "Various sizes available"⟩] := rfl

/-- C4 amended: the drop-on-missing-name guarantee holds exactly at the
structured-markup strategy's per-fragment parser: whenever
`parse_product_html` returns a record, that record's name is not the
sentinel `Unknown` (records whose name resolution failed — or whose anchor
text is literally `Unknown` — are dropped there).  The loose-pattern and
embedded-JSON strategies perform no such drop, which is what the
counterexample exploits. -/
theorem C4_amended_parse_drops_unknown :
    ∀ (fragment : String) (d : List (String × PyVal)),
      parse_product_html fragment = Option.some d →
      pyGet d ("name") ≠ .str ("Unknown") := by
  intro fragment d h
  unfold parse_product_html at h
  rcases hf : pphFound fragment with _ | ⟨u, t⟩ <;> rw [hf] at h <;> dsimp only at h
  · exact absurd h (by simp)
  · by_cases hq : pyStrip t ≠ ("Unknown")
    · rw [if_pos hq] at h
      obtain rfl := (Option.some.inj h).symm
      intro he
      apply hq
      simpa [pyGet, List.lookup] using he
    · rw [if_neg hq] at h
      exact absurd h (by simp)

/-- C4 amended, witness: the per-fragment parser applied to a concrete
fragment returns a record whose name is not `Unknown`. -/
theorem C4_amended_witness :
    pyGet [("name", PyVal.str ("Rose Oil")), ("price", PyVal.str ("N/A")),
      ("url", PyVal.str ("/rose.html")), ("sku", PyVal.str ("rose")),
      ("size", PyVal.str ("Various sizes available"))] ("name") ≠ .str ("Unknown") :=
  C4_amended_parse_drops_unknown ("<a href=\"/rose.html\">Rose Oil</a>") _ rfl

/-- C10: the loose-pattern strategy can emit the same product record more
than once: on `htmlC10` the second line's anchor text `more` flushes the
`Lavender Oil` accumulator into the output without resetting it (the text
is a stop word, so no new accumulator is started), and the end-of-input
flush appends the same record again, so the returned list contains the
record twice. -/
theorem C10_loose_pattern_duplicate :
    extract_simple_product_pattern htmlC10 =
      Option.some [.dict (newLooseRec ("Lavender Oil")),
        .dict (newLooseRec ("Lavender Oil"))] ∧
    looseAnchorText ("<a href=\"/more.html\">more</a>") = Option.some ("more") ∧
    qualifiesLoose ("more") = false :=
  ⟨rfl, rfl, rfl⟩

/-- The enrichment step leaves the price alone when the record has no
truthy product URL. -/
theorem epiEnrich_price_of_no_url (env : Env) (d : List (String × PyVal))
    (price size : String) (hurl : truthy (epiUrl d) = false) :
    epiEnrich env d price size = (price, size) := by
  unfold epiEnrich
  split
  · simp [hurl]
  · rfl

/-- C3 amended: for `search`/`category` records (with no
`custom_attributes` key and no truthy product URL, so neither the attribute
scan nor the enrichment step interferes), the canonical price is the first
present **and truthy** price field of `price`, `final_price`,
`regular_price`, `special_price` (falsy values such as numeric `0` are
skipped); a truthy numeric value is formatted `"$" + value`, a truthy
non-numeric one passes through string-coerced, and if all four are absent
or falsy the price is `N/A`.  In particular numeric `0` alone yields
`N/A`, not `$0`. -/
theorem C3_amended_price_first_truthy :
    ∀ (env : Env) (s : SourceKind) (d : List (String × PyVal)),
      List.lookup ("custom_attributes") d = Option.none →
      truthy (epiUrl d) = false →
      ∃ info, extract_product_info env (.dict d) s = .ok info ∧
        info.price = specAmendedPrice d := by
  intro env s d hattr hurl
  refine ⟨⟨epiName d, epiPrice d, epiSizeField d⟩, ?_, ?_⟩
  · unfold extract_product_info epiSizeAttrs
    dsimp only
    rw [hattr]
    dsimp only
    rw [epiEnrich_price_of_no_url env d _ _ hurl]
  · show epiPrice d = specAmendedPrice d
    unfold epiPrice specAmendedPrice
    by_cases h1 : truthy (pyGet d ("price")) <;>
      by_cases h2 : truthy (pyGet d ("final_price")) <;>
        by_cases h3 : truthy (pyGet d ("regular_price")) <;>
          by_cases h4 : truthy (pyGet d ("special_price")) <;>
            simp [pyOr, isNumeric, pyStr, h1, h2, h3, h4, List.find?]

/-- C3 amended, witness: the amended price rule evaluated at a concrete
record whose `price` field is numeric `0` and whose `regular_price` is
`2.5`: both sides give `$2.5`. -/
theorem C3_amended_witness :
    ∃ info, extract_product_info envNoFetch (.dict rawC3w) .search = .ok info ∧
      info.price = specAmendedPrice rawC3w :=
  C3_amended_price_first_truthy envNoFetch .search rawC3w rfl rfl

/-- A decimal magnitude is strictly below infinity. -/
theorem pfLt_inf_of_ne {f : PyFloat} (h : f ≠ .inf) : pfLt f .inf = true := by
  cases f with
  | dec a s => rfl
  | inf => exact absurd rfl h

/-- Strict magnitude comparison is asymmetric. -/
theorem pfLt_asymm {x y : PyFloat} (h : pfLt x y = true) : pfLt y x = false := by
  cases x with
  | inf => simp [pfLt] at h
  | dec a s =>
    cases y with
    | inf => rfl
    | dec b t =>
      simp only [pfLt, decide_eq_true_eq] at h
      simp only [pfLt, decide_eq_false_iff_not]
      omega

/-- Equal magnitudes are not strictly comparable. -/
theorem pfEq_not_lt {x y : PyFloat} (h : pfEq x y = true) :
    pfLt x y = false ∧ pfLt y x = false := by
  cases x with
  | inf =>
    cases y with
    | inf => exact ⟨rfl, rfl⟩
    | dec b t => simp [pfEq] at h
  | dec a s =>
    cases y with
    | inf => simp [pfEq] at h
    | dec b t =>
      simp only [pfEq, beq_iff_eq] at h
      constructor <;> simp only [pfLt, decide_eq_false_iff_not] <;> omega

/-- The selection fold never moves off an infinite bound on rows that all
normalize to infinity. -/
theorem bestLoop_all_inf :
    ∀ (vs : List SizeVariant), (∀ v ∈ vs, (normalize_size v.size).1 = .inf) →
      bestLoop vs = Option.none := by
  have step : ∀ (vs : List SizeVariant) (acc : Option SizeVariant × PyFloat),
      acc.2 = .inf → (∀ v ∈ vs, (normalize_size v.size).1 = .inf) →
      vs.foldl
        (fun (acc : Option SizeVariant × PyFloat) v =>
          let n := (normalize_size v.size).1
          if pfLt n acc.2 then (Option.some v, n) else acc) acc = acc := by
    intro vs
    induction vs with
    | nil => intro acc _ _; rfl
    | cons v rest ih =>
      intro acc hacc hall
      have hv : (normalize_size v.size).1 = .inf := hall v (by simp)
      have : pfLt (normalize_size v.size).1 acc.2 = false := by rw [hv]; rfl
      simp only [List.foldl_cons, this, if_neg Bool.false_ne_true]
      exact ih acc hacc fun w hw => hall w (by simp [hw])
  intro vs hall
  unfold bestLoop
  rw [step vs (Option.none, .inf) rfl hall]

/-- C6: the Variant Resolver's selection step.  For two rows `a`, `b` whose
sizes both normalize (magnitude below infinity), a strictly smaller
magnitude for `a` makes `a` the pick in either order; rows of equal
magnitude resolve to the first in the list; and when every row fails to
normalize (all magnitudes infinite) the first qualifying row is returned. -/
theorem C6_selection_smallest_first :
    (∀ a b : SizeVariant,
      pfLt (normalize_size a.size).1 (normalize_size b.size).1 = true →
      (normalize_size a.size).1 ≠ .inf →
      (normalize_size b.size).1 ≠ .inf →
      chooseVariant [a, b] = Option.some a ∧
      chooseVariant [b, a] = Option.some a) ∧
    (∀ a b : SizeVariant,
      pfEq (normalize_size a.size).1 (normalize_size b.size).1 = true →
      chooseVariant [a, b] = Option.some a) ∧
    (∀ vs : List SizeVariant, vs ≠ [] →
      (∀ v ∈ vs, (normalize_size v.size).1 = .inf) →
      chooseVariant vs = vs.head?) := by
  refine ⟨?_, ?_, ?_⟩
  · intro a b hlt ha hb
    constructor
    · simp [chooseVariant, bestLoop, pfLt_inf_of_ne ha, pfLt_asymm hlt]
    · simp [chooseVariant, bestLoop, pfLt_inf_of_ne hb, hlt]
  · intro a b heq
    by_cases ha : (normalize_size a.size).1 = .inf
    · have hb : (normalize_size b.size).1 = .inf := by
        cases hx : (normalize_size b.size).1 with
        | inf => rfl
        | dec n s => rw [ha, hx] at heq; exact absurd heq (by simp [pfEq])
      have hbl := bestLoop_all_inf [a, b] (by
        intro v hv
        rcases List.mem_cons.mp hv with h | h
        · rw [h]; exact ha
        · rcases List.mem_cons.mp h with h' | h'
          · rw [h']; exact hb
          · exact absurd h' (List.not_mem_nil v))
      simp [chooseVariant, hbl]
    · simp [chooseVariant, bestLoop, pfLt_inf_of_ne ha, (pfEq_not_lt heq).2]
  · intro vs hne hall
    simp [chooseVariant, bestLoop_all_inf vs hall]

/-- C6 witness: the three parts of the selection theorem instantiated at
concrete rows — `500ml` (500) beats `1kg` (1000) in either order, `1kg`
ties with `1000g` and the first wins, and a list of two unparseable sizes
falls back to its first row. -/
theorem C6_selection_witness :
    chooseVariant [⟨"500ml", "$5"⟩, ⟨"1kg", "$9"⟩] = Option.some ⟨"500ml", "$5"⟩ ∧
    chooseVariant [⟨"1kg", "$9"⟩, ⟨"500ml", "$5"⟩] = Option.some ⟨"500ml", "$5"⟩ ∧
    chooseVariant [⟨"1kg", "$9"⟩, ⟨"1000g", "$8"⟩] = Option.some ⟨"1kg", "$9"⟩ ∧
    chooseVariant [⟨"assorted", "N/A"⟩, ⟨"bulk", "N/A"⟩] =
      Option.some ⟨"assorted", "N/A"⟩ := by
  obtain ⟨h1, h2, h3⟩ := C6_selection_smallest_first
  obtain ⟨ha, hb⟩ := h1 ⟨"500ml", "$5"⟩ ⟨"1kg", "$9"⟩ rfl (by decide) (by decide)
  refine ⟨ha, hb, h2 ⟨"1kg", "$9"⟩ ⟨"1000g", "$8"⟩ rfl, ?_⟩
  have := h3 [⟨"assorted", "N/A"⟩, ⟨"bulk", "N/A"⟩] (by decide) (by
    intro v hv
    rcases List.mem_cons.mp hv with h | h
    · rw [h]; rfl
    · rcases List.mem_cons.mp h with h' | h'
      · rw [h']; rfl
      · exact absurd h' (List.not_mem_nil v))
  simpa using this

/-- C7: the Variant Resolver is total and never raises — its embedding
returns a `SizeVariant` for every URL value and fetch outcome — and on
every failure path it returns exactly the sentinel: a raised request
exception, a non-200 status, a 200 page with no qualifying grouped-table
variant rows and nothing for the document-wide fallback scan, and even a
non-string URL value (whose `.strip()` raises inside the resolver's own
`try`). -/
theorem C7_resolver_never_fails :
    ∀ (env : Env) (u : String),
      (env.fetch (urljoin (env.base ++ "/") (pyStrip u)) = .exn →
        fetch_product_variants env (.str u) = variantSentinel) ∧
      (∀ status text,
        env.fetch (urljoin (env.base ++ "/") (pyStrip u)) = .resp status text →
        status ≠ 200 → fetch_product_variants env (.str u) = variantSentinel) ∧
      (∀ text,
        env.fetch (urljoin (env.base ++ "/") (pyStrip u)) = .resp 200 text →
        groupedVariants text = [] → docSizeFallback text = Option.none →
        fetch_product_variants env (.str u) = variantSentinel) ∧
      (∀ pv : PyVal, (∀ s, pv ≠ .str s) →
        fetch_product_variants env pv = variantSentinel) := by
  intro env u
  refine ⟨?_, ?_, ?_, ?_⟩
  · intro h
    unfold fetch_product_variants
    dsimp only
    rw [h]
  · intro status text h hs
    unfold fetch_product_variants
    dsimp only
    rw [h]
    simp [hs]
  · intro text h hgv hdoc
    unfold fetch_product_variants
    dsimp only
    rw [h]
    simp [chooseVariant, bestLoop, hgv, hdoc]
  · intro pv hpv
    cases pv with
    | str s => exact absurd rfl (hpv s)
    | none => rfl
    | bool b => rfl
    | int n => rfl
    | float f => rfl
    | list l => rfl
    | dict d => rfl

/-- A line step of the loose-pattern loop never clears a live
accumulator. -/
theorem looseStep_current_isSome (st : LooseState) (line : String)
    (h : st.current.isSome = true) :
    ((looseStep st line).current).isSome = true := by
  obtain ⟨fr, pe, cur⟩ := st
  cases cur with
  | none => simp at h
  | some c =>
    unfold looseStep
    rcases hA : looseAnchorText line with _ | g
    · simp only [hA]
      rcases hP : (reSearch simplePriceRE line).bind (capString 1) with _ | pr <;>
        simp [hP]
    · simp only [hA]
      by_cases hq : qualifiesLoose (pyStrip g) = true
      · simp only [hq, if_true]
        rcases hP : (reSearch simplePriceRE line).bind (capString 1) with _ | pr <;>
          simp [hP]
      · simp only [Bool.not_eq_true] at hq
        simp only [hq, Bool.false_eq_true, if_false]
        rcases hP : (reSearch simplePriceRE line).bind (capString 1) with _ | pr <;>
          simp [hP]

/-- A line whose anchor text qualifies leaves the loop with a live
accumulator, whatever the state before it. -/
theorem looseStep_sets_current (st : LooseState) (line g : String)
    (hA : looseAnchorText line = Option.some g)
    (hq : qualifiesLoose (pyStrip g) = true) :
    ((looseStep st line).current).isSome = true := by
  obtain ⟨fr, pe, cur⟩ := st
  unfold looseStep
  simp only [hA, hq, if_true]
  cases cur <;>
    rcases hP : (reSearch simplePriceRE line).bind (capString 1) with _ | pr <;>
      simp [hP]

/-- The loose-pattern loop keeps a live accumulator live to the end. -/
theorem foldl_looseStep_keeps (ls : List String) :
    ∀ st : LooseState, st.current.isSome = true →
      (((ls.foldl looseStep st).current)).isSome = true := by
  induction ls with
  | nil => intro st h; exact h
  | cons l rest ih =>
    intro st h
    exact ih (looseStep st l) (looseStep_current_isSome st l h)

/-- A live accumulator makes the final product list non-empty (the final
flush appends it). -/
theorem looseFinish_ne_nil (st : LooseState) (h : st.current.isSome = true) :
    looseFinish st ≠ [] := by
  obtain ⟨c, hc⟩ := Option.isSome_iff_exists.mp h
  unfold looseFinish
  rw [hc]
  simp [List.replicate]

/-- Any input containing a line with a qualifying anchor makes the
loose-pattern loop produce at least one record. -/
theorem loose_nonempty_of_qualifying (ls : List String) :
    ∀ st : LooseState,
      (∃ line ∈ ls, ∃ g, looseAnchorText line = Option.some g ∧
        qualifiesLoose (pyStrip g) = true) →
      looseFinish (ls.foldl looseStep st) ≠ [] := by
  induction ls with
  | nil =>
    intro st h
    rcases h with ⟨l, hl, _⟩
    exact absurd hl (List.not_mem_nil l)
  | cons l rest ih =>
    intro st h
    rcases h with ⟨l', hl', g, hA, hq⟩
    simp only [List.foldl_cons]
    rcases List.mem_cons.mp hl' with rfl | hmem
    · exact looseFinish_ne_nil _
        (foldl_looseStep_keeps rest _ (looseStep_sets_current st l' g hA hq))
    · exact ih (looseStep st l) ⟨l', hmem, g, hA, hq⟩

/-- C9: for every document in which the embedded-JSON phase finds no
parseable product JSON and the structured-markup pattern matches no
list-item fragment, but which has a line with a `.html` anchor whose
stripped text is longer than 3 characters and not a stop word, together
with a `Starting at $N` price line, the cascade falls through to the
loose-pattern strategy and returns at least one record (not `none`). -/
theorem C9_cascade_fallback :
    ∀ (html : String),
      jsonPhase html = Option.none →
      (reFindall productLiRE html).filterMap (capString 1) = [] →
      (∃ line ∈ linesOf html, ∃ g, looseAnchorText line = Option.some g ∧
        qualifiesLoose (pyStrip g) = true) →
      (∃ line ∈ linesOf html,
        ((reSearch simplePriceRE line).bind (capString 1)).isSome = true) →
      ∃ l, extract_from_html_json html = Option.some l ∧ l ≠ [] := by
  intro html h1 h2 h3 _h4
  have hne := loose_nonempty_of_qualifying (linesOf html) ⟨[], 0, Option.none⟩ h3
  have hsimple : ∃ l, extract_simple_product_pattern html = Option.some l ∧ l ≠ [] := by
    unfold extract_simple_product_pattern
    refine ⟨(looseFinish ((linesOf html).foldl looseStep ⟨[], 0, Option.none⟩)).map PyVal.dict, ?_, ?_⟩
    · rw [if_neg]
      simp only [List.isEmpty_eq_true, List.map_eq_nil_iff]
      exact hne
    · simp only [ne_eq, List.map_eq_nil_iff]
      exact hne
  unfold extract_from_html_json
  rw [h1]
  unfold extract_from_html_structure
  rw [h2]
  simpa using hsimple

/-- C9 witness: the fallback theorem applied to `htmlC9`, every hypothesis
discharged by computation. -/
theorem C9_cascade_witness :
    ∃ l, extract_from_html_json htmlC9 = Option.some l ∧ l ≠ [] :=
  C9_cascade_fallback htmlC9 rfl rfl
    ⟨"<a href=\"/a.html\">Lavender Oil</a>", by decide, "Lavender Oil", rfl, rfl⟩
    ⟨"Starting at $5", by decide, rfl⟩

/-- The page loop starting at page `s` with `b` pages of budget requests a
consecutive block of pages `s, s+1, …`: every requested page but the last
was good, and the last one is either bad or hit the budget cap. -/
theorem ewpAux_structure (env : Env) (base : String) :
    ∀ (b s : Nat), ∃ k, k ≤ b ∧
      (ewpAux env base s b).1 = List.range' s k ∧
      (∀ i, i + 1 < k → goodPage env base (s + i) = true) ∧
      (k = b ∨ (0 < k ∧ goodPage env base (s + (k - 1)) = false)) := by
  intro b
  induction b with
  | zero =>
    intro s
    exact ⟨0, le_refl 0, rfl, fun i hi => absurd hi (by omega), Or.inl rfl⟩
  | succ b ih =>
    intro s
    have terminal :
        (ewpAux env base s (b + 1)).1 = [s] → goodPage env base s = false →
        ∃ k, k ≤ b + 1 ∧
          (ewpAux env base s (b + 1)).1 = List.range' s k ∧
          (∀ i, i + 1 < k → goodPage env base (s + i) = true) ∧
          (k = b + 1 ∨ (0 < k ∧ goodPage env base (s + (k - 1)) = false)) := by
      intro htr hbad
      exact ⟨1, by omega, htr.trans rfl, fun i hi => absurd hi (by omega),
        Or.inr ⟨by omega, by simpa using hbad⟩⟩
    rcases hf : env.fetch (pageUrl base s) with _ | ⟨status, text⟩
    · refine terminal ?_ ?_
      · unfold ewpAux; rw [hf]
      · unfold goodPage; rw [hf]
    · by_cases hs : status = 200
      · subst hs
        by_cases hm : hasMarkers text = true
        · rcases he : extract_from_html_json text with _ | l
          · refine terminal ?_ ?_
            · unfold ewpAux; rw [hf]; simp [hm, he]
            · unfold goodPage; rw [hf]; simp [he]
          · by_cases hl : l.isEmpty = true
            · refine terminal ?_ ?_
              · unfold ewpAux; rw [hf]; simp [hm, he, hl]
              · unfold goodPage; rw [hf]; simp [he, hl]
            · simp only [Bool.not_eq_true] at hl
              obtain ⟨k', hk'b, htr, hgood, hlast⟩ := ih (s + 1)
              rcases hx : ewpAux env base (s + 1) b with ⟨tr, ps⟩
              have htr' : tr = List.range' (s + 1) k' := by rw [hx] at htr; exact htr
              refine ⟨k' + 1, by omega, ?_, ?_, ?_⟩
              · unfold ewpAux
                rw [hf]
                simp [hm, he, hl, hx, htr', List.range'_succ]
              · intro i hi
                match i with
                | 0 =>
                  show goodPage env base (s + 0) = true
                  rw [Nat.add_zero]
                  unfold goodPage
                  rw [hf]
                  simp [hm, he, hl]
                | j + 1 =>
                  have hg := hgood j (by omega)
                  have harith : s + 1 + j = s + (j + 1) := by omega
                  rwa [harith] at hg
              · rcases hlast with hkb | ⟨hk'pos, hbad⟩
                · exact Or.inl (by omega)
                · refine Or.inr ⟨by omega, ?_⟩
                  have harith : s + 1 + (k' - 1) = s + (k' + 1 - 1) := by omega
                  rwa [harith] at hbad
        · simp only [Bool.not_eq_true] at hm
          refine terminal ?_ ?_
          · unfold ewpAux; rw [hf]; simp [hm]
          · unfold goodPage; rw [hf]; simp [hm]
      · refine terminal ?_ ?_
        · unfold ewpAux; rw [hf]; simp [hs]
        · unfold goodPage; rw [hf]; simp [hs]

/-- Every per-URL trace `scrape_products` records is exactly the page list
of `extract_with_pagination` with the 30-page cap. -/
theorem scrapeLoop_trace_mem (env : Env) :
    ∀ (us : List String) (trace : List (String × List Nat))
      (acc : List ProductInfo) (u : String) (tr : List Nat),
      (u, tr) ∈ (scrapeLoop env us trace acc).1 →
      (u, tr) ∈ trace ∨ tr = (extract_with_pagination env u 30).1 := by
  intro us
  induction us with
  | nil => intro trace acc u tr h; exact Or.inl h
  | cons u' rest ih =>
    intro trace acc u tr h
    unfold scrapeLoop at h
    rcases ih _ _ u tr h with hmem | heq
    · rcases List.mem_append.mp hmem with h1 | h2
      · exact Or.inl h1
      · have hpair : (u, tr) = (u', (extract_with_pagination env u' 30).1) := by
          simpa using h2
        rw [Prod.mk.injEq] at hpair
        rw [hpair.1]
        exact Or.inr hpair.2
    · exact Or.inr heq

/-- C8: pagination over one listing URL requests consecutive pages from
`p = 1` and stops at the first page that fails (request exception, non-200
status, missing `product`/`starting at` markers, or empty extraction): the
requested pages form `[1, …, k]` with every page before the `k`-th good and
the `k`-th either bad or the `max_pages` cap; every trace `scrape_products`
produces comes from `extract_with_pagination` with `max_pages = 30`; and in
the mocked sequence where page 3 has no product markers, exactly pages 1-3
are requested (page 4 never), with only the products of pages 1 and 2
returned. -/
theorem C8_pagination_stops_at_first_bad_page :
    (∀ (env : Env) (base : String) (n : Nat), ∃ k, k ≤ n ∧
      (extract_with_pagination env base n).1 = List.range' 1 k ∧
      (∀ j, 1 ≤ j → j < k → goodPage env base j = true) ∧
      (k = n ∨ (0 < k ∧ goodPage env base k = false))) ∧
    (∀ (env : Env) (urls : Option (List String)) (u : String) (tr : List Nat),
      (u, tr) ∈ (scrape_products env urls).1 →
      tr = (extract_with_pagination env u 30).1) ∧
    ((extract_with_pagination envC8 urlC 30).1 = [1, 2, 3] ∧
     (4 : Nat) ∉ (extract_with_pagination envC8 urlC 30).1 ∧
     (extract_with_pagination envC8 urlC 30).2 =
       [.dict (newLooseRec ("Oil Alpha")), .dict (newLooseRec ("Oil Beta"))]) := by
  refine ⟨?_, ?_, rfl, by decide, rfl⟩
  · intro env base n
    obtain ⟨k, hkn, htr, hgood, hlast⟩ := ewpAux_structure env base n 1
    refine ⟨k, hkn, htr, ?_, ?_⟩
    · intro j hj1 hjk
      have hg := hgood (j - 1) (by omega)
      have harith : 1 + (j - 1) = j := by omega
      rwa [harith] at hg
    · rcases hlast with hkb | ⟨hkpos, hbad⟩
      · exact Or.inl hkb
      · refine Or.inr ⟨hkpos, ?_⟩
        have harith : 1 + (k - 1) = k := by omega
        rwa [harith] at hbad
  · intro env urls u tr h
    rcases scrapeLoop_trace_mem env (urls.getD []) [] [] u tr h with hmem | heq
    · exact absurd hmem (List.not_mem_nil _)
    · exact heq

/-- Structural equality against a string value characterizes the value. -/
theorem beqPy_str_iff {x : PyVal} {t : String} : beqPy x (.str t) = true ↔ x = .str t := by
  cases x <;> simp [beqPy]

/-- Carrying a name means the record's `name` field is exactly that
string. -/
theorem carriesName_dict {nm : String} {d : List (String × PyVal)} :
    carriesName nm (.dict d) = true ↔ pyGet d ("name") = .str nm := by
  simp [carriesName, beqPy_str_iff]

/-- A non-empty string is Python-truthy. -/
theorem truthy_str_of_ne {s : String} (h : s ≠ "") : truthy (.str s) = true := by
  obtain ⟨cs⟩ := s
  cases cs with
  | nil => exact absurd rfl h
  | cons c rest => rfl

/-- A record carrying a non-empty name in its `name` field normalizes its
name to exactly that string (the `or`-chain stops at the first truthy
value). -/
theorem epiName_of_name {d : List (String × PyVal)} {nm : String} (hnm : nm ≠ "")
    (h : pyGet d ("name") = .str nm) : epiName d = .str nm := by
  unfold epiName
  rw [h]
  simp [pyOr, truthy_str_of_ne hnm]

/-- The Record Normalizer's output name is always the record's name
chain. -/
theorem extract_name_eq {env : Env} {d : List (String × PyVal)} {s : SourceKind}
    {info : ProductInfo} (h : extract_product_info env (.dict d) s = .ok info) :
    info.name = epiName d := by
  unfold extract_product_info at h
  dsimp only at h
  rcases ha : epiSizeAttrs d (epiSizeField d) with e | size1 <;> rw [ha] at h <;>
    dsimp only at h
  · exact absurd h (by simp)
  · rcases hE : epiEnrich env d (epiPrice d) size1 with ⟨p2, s2⟩
    rw [hE] at h
    dsimp only at h
    simp only [Except.ok.injEq] at h
    rw [← h]

/-- A list has no element satisfying a predicate exactly when its filter is
empty. -/
theorem any_false_iff_filter_nil {α} (l : List α) (p : α → Bool) :
    l.any p = false ↔ l.filter p = [] := by
  induction l with
  | nil => simp
  | cons a t ih => by_cases h : p a <;> simp [h, ih]

/-- Searching a concatenation searches the pieces in order. -/
theorem find?_append_cases {α} (l1 l2 : List α) (f : α → Bool) :
    (l1 ++ l2).find? f =
      (match l1.find? f with
       | Option.some x => Option.some x
       | Option.none => l2.find? f) := by
  induction l1 with
  | nil => rfl
  | cons a t ih => by_cases h : f a <;> simp [List.find?_cons, h, ih]

/-- A normalized non-carrier record never matches the dedup name filter. -/
theorem nonCarrier_filter_false {env : Env} {nm : String} {d : List (String × PyVal)}
    {info : ProductInfo}
    (hok : extract_product_info env (.dict d) .category = .ok info)
    (hco : pyEqV (epiNameOf (PyVal.dict d)) (.str nm) = true →
      carriesName nm (PyVal.dict d) = true)
    (hcar : ¬carriesName nm (PyVal.dict d) = true) :
    pyEqV info.name (.str nm) = false := by
  have hnameeq : info.name = epiName d := extract_name_eq hok
  cases hB : pyEqV (epiNameOf (PyVal.dict d)) (.str nm) with
  | true => exact absurd (hco hB) hcar
  | false => rw [hnameeq]; exact hB

/-- The per-record dedup loop preserves an already-settled name filter
(once some product with the watched name is in the accumulator, no further
record with that name is appended). -/
theorem processRecords_filter_keep (env : Env) (nm : String) :
    ∀ (recs : List PyVal) (acc : List ProductInfo) (q : ProductInfo),
      (∀ r ∈ recs, (∃ d, r = PyVal.dict d) ∧
        (∃ info, extract_product_info env r .category = .ok info) ∧
        (pyEqV (epiNameOf r) (.str nm) = true → carriesName nm r = true)) →
      acc.filter (fun p => pyEqV p.name (.str nm)) = [q] →
      ((processRecords env recs acc).1.filter fun p => pyEqV p.name (.str nm)) = [q] := by
  intro recs
  induction recs with
  | nil => intro acc q _ hq; exact hq
  | cons r rest ih =>
    intro acc q hhyp hq
    obtain ⟨hd, hoke, hco⟩ := hhyp r (List.mem_cons_self r rest)
    obtain ⟨d, rfl⟩ := hd
    obtain ⟨info, hok⟩ := hoke
    have hrest := fun r' hr' => hhyp r' (List.mem_cons_of_mem _ hr')
    unfold processRecords
    dsimp only
    by_cases hany : (acc.any fun p => pyEqV p.name (pyGet d ("name"))) = true
    · simp only [hany, if_true]
      exact ih acc q hrest hq
    · simp only [Bool.not_eq_true] at hany
      simp only [hany, Bool.false_eq_true, if_false]
      rw [hok]
      by_cases hcar : carriesName nm (PyVal.dict d) = true
      · exfalso
        have hrn : pyGet d ("name") = .str nm := carriesName_dict.mp hcar
        rw [hrn] at hany
        have hnil : acc.filter (fun p => pyEqV p.name (.str nm)) = [] :=
          (any_false_iff_filter_nil acc _).mp hany
        rw [hnil] at hq
        exact List.noConfusion hq
      · have hP := nonCarrier_filter_false hok hco hcar
        have hq' : (acc ++ [info]).filter (fun p => pyEqV p.name (.str nm)) = [q] := by
          rw [List.filter_append]
          simp [hP, hq]
        exact ih (acc ++ [info]) q hrest hq'

/-- The per-record dedup loop appends no record with the watched name when
none of the incoming records carries it. -/
theorem processRecords_filter_none (env : Env) (nm : String) :
    ∀ (recs : List PyVal) (acc : List ProductInfo),
      (∀ r ∈ recs, (∃ d, r = PyVal.dict d) ∧
        (∃ info, extract_product_info env r .category = .ok info) ∧
        (pyEqV (epiNameOf r) (.str nm) = true → carriesName nm r = true)) →
      recs.find? (carriesName nm) = Option.none →
      acc.filter (fun p => pyEqV p.name (.str nm)) = [] →
      ((processRecords env recs acc).1.filter fun p => pyEqV p.name (.str nm)) = [] := by
  intro recs
  induction recs with
  | nil => intro acc _ _ hq; exact hq
  | cons r rest ih =>
    intro acc hhyp hfind hq
    obtain ⟨hd, hoke, hco⟩ := hhyp r (List.mem_cons_self r rest)
    obtain ⟨d, rfl⟩ := hd
    obtain ⟨info, hok⟩ := hoke
    have hrest := fun r' hr' => hhyp r' (List.mem_cons_of_mem _ hr')
    have hcar : ¬carriesName nm (PyVal.dict d) = true := by
      intro hc
      rw [List.find?_cons_of_pos _ hc] at hfind
      exact Option.noConfusion hfind
    have hfind' : rest.find? (carriesName nm) = Option.none := by
      rwa [List.find?_cons_of_neg _ (by simpa using hcar)] at hfind
    unfold processRecords
    dsimp only
    by_cases hany : (acc.any fun p => pyEqV p.name (pyGet d ("name"))) = true
    · simp only [hany, if_true]
      exact ih acc hrest hfind' hq
    · simp only [Bool.not_eq_true] at hany
      simp only [hany, Bool.false_eq_true, if_false]
      rw [hok]
      have hP := nonCarrier_filter_false hok hco hcar
      have hq' : (acc ++ [info]).filter (fun p => pyEqV p.name (.str nm)) = [] := by
        rw [List.filter_append]
        simp [hP, hq]
      exact ih (acc ++ [info]) hrest hfind' hq'

/-- The per-record dedup loop: the first record carrying the watched name
is normalized and appended, every later record with that name is skipped by
the name check, so the filter of the result is exactly that one
normalization. -/
theorem processRecords_filter_carrier (env : Env) (nm : String) (hnm : nm ≠ "") :
    ∀ (recs : List PyVal) (acc : List ProductInfo) (r1 : PyVal) (info1 : ProductInfo),
      (∀ r ∈ recs, (∃ d, r = PyVal.dict d) ∧
        (∃ info, extract_product_info env r .category = .ok info) ∧
        (pyEqV (epiNameOf r) (.str nm) = true → carriesName nm r = true)) →
      recs.find? (carriesName nm) = Option.some r1 →
      extract_product_info env r1 .category = .ok info1 →
      acc.filter (fun p => pyEqV p.name (.str nm)) = [] →
      ((processRecords env recs acc).1.filter fun p => pyEqV p.name (.str nm)) = [info1] := by
  intro recs
  induction recs with
  | nil =>
    intro acc r1 info1 _ hfind _ _
    exact absurd hfind (by simp)
  | cons r rest ih =>
    intro acc r1 info1 hhyp hfind hok1 hq
    obtain ⟨hd, hoke, hco⟩ := hhyp r (List.mem_cons_self r rest)
    obtain ⟨d, rfl⟩ := hd
    obtain ⟨info, hok⟩ := hoke
    have hrest := fun r' hr' => hhyp r' (List.mem_cons_of_mem _ hr')
    by_cases hcar : carriesName nm (PyVal.dict d) = true
    · rw [List.find?_cons_of_pos _ hcar] at hfind
      obtain rfl : PyVal.dict d = r1 := Option.some.inj hfind
      have hrn : pyGet d ("name") = .str nm := carriesName_dict.mp hcar
      have hany : (acc.any fun p => pyEqV p.name (pyGet d ("name"))) = false := by
        rw [hrn]
        exact (any_false_iff_filter_nil acc _).mpr hq
      unfold processRecords
      dsimp only
      rw [hany]
      simp only [Bool.false_eq_true, if_false]
      rw [hok1]
      have hPtrue : pyEqV info1.name (.str nm) = true := by
        rw [extract_name_eq hok1, epiName_of_name hnm hrn]
        simp [pyEqV]
      have hq' : (acc ++ [info1]).filter (fun p => pyEqV p.name (.str nm)) = [info1] := by
        rw [List.filter_append]
        simp [hPtrue, hq]
      exact processRecords_filter_keep env nm rest (acc ++ [info1]) info1 hrest hq'
    · have hfind' : rest.find? (carriesName nm) = Option.some r1 := by
        rwa [List.find?_cons_of_neg _ (by simpa using hcar)] at hfind
      unfold processRecords
      dsimp only
      by_cases hany : (acc.any fun p => pyEqV p.name (pyGet d ("name"))) = true
      · simp only [hany, if_true]
        exact ih acc r1 info1 hrest hfind' hok1 hq
      · simp only [Bool.not_eq_true] at hany
        simp only [hany, Bool.false_eq_true, if_false]
        rw [hok]
        have hP := nonCarrier_filter_false hok hco hcar
        have hq' : (acc ++ [info]).filter (fun p => pyEqV p.name (.str nm)) = [] := by
          rw [List.filter_append]
          simp [hP, hq]
        exact ih (acc ++ [info]) r1 info1 hrest hfind' hok1 hq'

/-- A scrape run's per-URL loop preserves a settled name filter. -/
theorem scrapeLoop_filter_keep (env : Env) (nm : String) :
    ∀ (us : List String) (trace : List (String × List Nat))
      (acc : List ProductInfo) (q : ProductInfo),
      (∀ r ∈ (rawStreams env us).flatten, (∃ d, r = PyVal.dict d) ∧
        (∃ info, extract_product_info env r .category = .ok info) ∧
        (pyEqV (epiNameOf r) (.str nm) = true → carriesName nm r = true)) →
      acc.filter (fun p => pyEqV p.name (.str nm)) = [q] →
      ((scrapeLoop env us trace acc).2.filter fun p => pyEqV p.name (.str nm)) = [q] := by
  intro us
  induction us with
  | nil => intro trace acc q _ hq; exact hq
  | cons u rest ih =>
    intro trace acc q hhyp hq
    have hsplit : ∀ r, r ∈ (extract_with_pagination env u 30).2 ∨
        r ∈ (rawStreams env rest).flatten → r ∈ (rawStreams env (u :: rest)).flatten := by
      intro r hr
      simp only [rawStreams, List.map_cons, List.flatten_cons]
      rcases hr with h | h
      · exact List.mem_append_left _ h
      · exact List.mem_append_right _ (by simpa [rawStreams] using h)
    have hthis := fun r hr => hhyp r (hsplit r (Or.inl hr))
    have hrest := fun r hr => hhyp r (hsplit r (Or.inr hr))
    unfold scrapeLoop
    dsimp only
    by_cases hemp : (extract_with_pagination env u 30).2.isEmpty = true
    · simp only [hemp, if_true]
      exact ih _ acc q hrest hq
    · simp only [Bool.not_eq_true] at hemp
      simp only [hemp, Bool.false_eq_true, if_false]
      exact ih _ _ q hrest (processRecords_filter_keep env nm _ acc q hthis hq)

/-- A scrape run's per-URL loop appends no record with the watched name
when no stream record carries it. -/
theorem scrapeLoop_filter_none (env : Env) (nm : String) :
    ∀ (us : List String) (trace : List (String × List Nat))
      (acc : List ProductInfo),
      (∀ r ∈ (rawStreams env us).flatten, (∃ d, r = PyVal.dict d) ∧
        (∃ info, extract_product_info env r .category = .ok info) ∧
        (pyEqV (epiNameOf r) (.str nm) = true → carriesName nm r = true)) →
      (rawStreams env us).flatten.find? (carriesName nm) = Option.none →
      acc.filter (fun p => pyEqV p.name (.str nm)) = [] →
      ((scrapeLoop env us trace acc).2.filter fun p => pyEqV p.name (.str nm)) = [] := by
  intro us
  induction us with
  | nil => intro trace acc _ _ hq; exact hq
  | cons u rest ih =>
    intro trace acc hhyp hfind hq
    have hjoin : (rawStreams env (u :: rest)).flatten =
        (extract_with_pagination env u 30).2 ++ (rawStreams env rest).flatten := by
      simp [rawStreams]
    rw [hjoin] at hhyp hfind
    rw [find?_append_cases] at hfind
    have hthis := fun r hr => hhyp r (List.mem_append_left _ hr)
    have hrest := fun r hr => hhyp r (List.mem_append_right _ hr)
    rcases hf1 : (extract_with_pagination env u 30).2.find? (carriesName nm) with _ | r'
    case _ =>
      rw [hf1] at hfind
      unfold scrapeLoop
      dsimp only
      by_cases hemp : (extract_with_pagination env u 30).2.isEmpty = true
      · simp only [hemp, if_true]
        exact ih _ acc hrest hfind hq
      · simp only [Bool.not_eq_true] at hemp
        simp only [hemp, Bool.false_eq_true, if_false]
        exact ih _ _ hrest hfind
          (processRecords_filter_none env nm _ acc hthis hf1 hq)
    case _ =>
      rw [hf1] at hfind
      exact absurd hfind (by simp)

/-- A scrape run's per-URL loop: the first stream record carrying the
watched name determines the single filtered output record. -/
theorem scrapeLoop_filter_carrier (env : Env) (nm : String) (hnm : nm ≠ "") :
    ∀ (us : List String) (trace : List (String × List Nat))
      (acc : List ProductInfo) (r1 : PyVal) (info1 : ProductInfo),
      (∀ r ∈ (rawStreams env us).flatten, (∃ d, r = PyVal.dict d) ∧
        (∃ info, extract_product_info env r .category = .ok info) ∧
        (pyEqV (epiNameOf r) (.str nm) = true → carriesName nm r = true)) →
      (rawStreams env us).flatten.find? (carriesName nm) = Option.some r1 →
      extract_product_info env r1 .category = .ok info1 →
      acc.filter (fun p => pyEqV p.name (.str nm)) = [] →
      ((scrapeLoop env us trace acc).2.filter fun p => pyEqV p.name (.str nm)) = [info1] := by
  intro us
  induction us with
  | nil =>
    intro trace acc r1 info1 _ hfind _ _
    exact absurd hfind (by simp [rawStreams])
  | cons u rest ih =>
    intro trace acc r1 info1 hhyp hfind hok1 hq
    have hjoin : (rawStreams env (u :: rest)).flatten =
        (extract_with_pagination env u 30).2 ++ (rawStreams env rest).flatten := by
      simp [rawStreams]
    rw [hjoin] at hhyp hfind
    rw [find?_append_cases] at hfind
    have hthis := fun r hr => hhyp r (List.mem_append_left _ hr)
    have hrest := fun r hr => hhyp r (List.mem_append_right _ hr)
    rcases hf1 : (extract_with_pagination env u 30).2.find? (carriesName nm) with _ | r'
    case _ =>
      rw [hf1] at hfind
      unfold scrapeLoop
      dsimp only
      by_cases hemp : (extract_with_pagination env u 30).2.isEmpty = true
      · simp only [hemp, if_true]
        exact ih _ acc r1 info1 hrest hfind hok1 hq
      · simp only [Bool.not_eq_true] at hemp
        simp only [hemp, Bool.false_eq_true, if_false]
        exact ih _ _ r1 info1 hrest hfind hok1
          (processRecords_filter_none env nm _ acc hthis hf1 hq)
    case _ =>
      rw [hf1] at hfind
      obtain rfl : r' = r1 := Option.some.inj hfind
      have hne : (extract_with_pagination env u 30).2 ≠ [] := by
        intro hnil
        rw [hnil] at hf1
        exact Option.noConfusion hf1
      have hemp : (extract_with_pagination env u 30).2.isEmpty = false := by
        rcases hx : (extract_with_pagination env u 30).2 with _ | ⟨a, l⟩
        · exact absurd hx hne
        · rfl
      unfold scrapeLoop
      dsimp only
      simp only [hemp, Bool.false_eq_true, if_false]
      exact scrapeLoop_filter_keep env nm rest _ _ info1 hrest
        (processRecords_filter_carrier env nm hnm _ acc r' info1 hthis hf1 hok1 hq)

/-- C5: within one scrape run deduplication is by exact name string
equality and the first occurrence wins: whenever the raw records of the run
are well-formed dicts that normalize without an exception, records carrying
the watched name carry it literally in their `name` field, and some record
carries the (non-empty) name `nm`, the final output of `scrape_products`
contains exactly one record with that name — the normalization of the first
raw record (any page, any URL, in processing order) that carried it,
retaining that record's price. -/
theorem C5_dedup_exact_name_first_wins :
    ∀ (env : Env) (urls : List String) (nm : String) (r1 : PyVal)
      (info1 : ProductInfo),
      nm ≠ "" →
      (∀ r ∈ (rawStreams env urls).flatten, (∃ d, r = PyVal.dict d) ∧
        (∃ info, extract_product_info env r .category = .ok info) ∧
        (pyEqV (epiNameOf r) (.str nm) = true → carriesName nm r = true)) →
      (rawStreams env urls).flatten.find? (carriesName nm) = Option.some r1 →
      extract_product_info env r1 .category = .ok info1 →
      ((scrape_products env (Option.some urls)).2.filter
        fun p => pyEqV p.name (.str nm)) = [info1] := by
  intro env urls nm r1 info1 hnm hhyp hfind hok1
  unfold scrape_products
  exact scrapeLoop_filter_carrier env nm hnm urls [] [] r1 info1 hhyp hfind hok1 rfl

/-- C5 witness: the dedup theorem applied to the concrete two-page run
whose records both carry the name `Lavender Oil` at different prices — the
output retains exactly one such record, at the first-seen price `$5`. -/
theorem C5_dedup_witness :
    ((scrape_products envC5 (Option.some [urlC])).2.filter
      fun p => pyEqV p.name (.str ("Lavender Oil"))) = [infoC5] := by
  refine C5_dedup_exact_name_first_wins envC5 [urlC] ("Lavender Oil")
    (.dict recC5a) infoC5 (by decide) ?_ rfl rfl
  intro r hr
  have hjoin : (rawStreams envC5 [urlC]).flatten = [.dict recC5a, .dict recC5b] := rfl
  rw [hjoin] at hr
  rcases List.mem_cons.mp hr with rfl | hr'
  · exact ⟨⟨recC5a, rfl⟩, ⟨infoC5, rfl⟩, fun _ => rfl⟩
  · rcases List.mem_cons.mp hr' with rfl | hr''
    · exact ⟨⟨recC5b, rfl⟩, ⟨⟨.str ("Lavender Oil"), "$9", "Various sizes available"⟩, rfl⟩,
        fun _ => rfl⟩
    · exact absurd hr'' (List.not_mem_nil r)

end MagentoScraper
